import Mathlib

/-!
Shallow embedding of the wiki markup renderer of this repository
(`src/js/renderer.js`, with the extended variant of the renderer kept in the
repository's unnamed file `part_001` embedded in namespace `Ext`).

Strings are modelled as `List Char` internally (`String.data`); every JS
regular-expression pass is implemented as an explicit character-level scanner
that reproduces the JS semantics of `String.replace` with a global pattern
(leftmost match, non-overlapping, advance by one character on a failed match
attempt).  Recursions use an explicit fuel argument equal to the input length
(every step consumes at least one input character, so the fuel never runs
out); this keeps all definitions structurally recursive and kernel-reducible.
-/

namespace Wiki

/-- The JS `\s` character class, restricted to the ASCII whitespace characters
(the inputs treated in the development are ASCII/Korean text without the
exotic Unicode spaces). -/
def isWs (c : Char) : Bool :=
  c = ' ' || c = '\t' || c = '\n' || c = '\r' || c = '\x0b' || c = '\x0c'

/-- The JS `\w` character class: ASCII letters, digits and underscore. -/
def isWordChar (c : Char) : Bool :=
  c.isAlphanum || c = '_'

/-- `text.trim()`: strip leading and trailing whitespace. -/
def trimChars (l : List Char) : List Char :=
  ((l.dropWhile isWs).reverse.dropWhile isWs).reverse

/-- Digits of a natural number, as the decimal string JS would print. -/
def natToChars (n : Nat) : List Char :=
  (Nat.repr n).data

/-- One maximal whitespace run becomes a single `sep` character
(the JS `replace(/\s+/g, sep)`); `prevWs` records whether the previous
character was whitespace. -/
def collapseWsGo (sep : Char) : Bool → List Char → List Char
  | _, [] => []
  | prevWs, c :: cs =>
    if isWs c then
      if prevWs then collapseWsGo sep true cs
      else sep :: collapseWsGo sep true cs
    else c :: collapseWsGo sep false cs

/-- `replace(/\s+/g, sep)` for a single replacement character. -/
def collapseWsWith (sep : Char) (l : List Char) : List Char :=
  collapseWsGo sep false l

/-- The DOM-based `escapeHtml` helper of the source (`div.textContent`
followed by `div.innerHTML`): it escapes exactly `&`, `<` and `>`. -/
def escapeHtmlChar (c : Char) : List Char :=
  if c = '&' then "&amp;".data
  else if c = '<' then "&lt;".data
  else if c = '>' then "&gt;".data
  else [c]

/-- `escapeHtml` of the source, on character lists. -/
def escapeHtml (l : List Char) : List Char :=
  (l.map escapeHtmlChar).flatten

/-- `content.split(sep)` for a one-character separator, JS semantics
(`"".split` gives one empty piece, a trailing separator gives a trailing
empty piece). -/
def splitOnChar (sep : Char) : List Char → List (List Char)
  | [] => [[]]
  | c :: cs =>
    let r := splitOnChar sep cs
    if c = sep then [] :: r
    else (c :: r.headD []) :: r.tail

/-- `content.split('\n')`. -/
def splitLines (l : List Char) : List (List Char) :=
  splitOnChar '\n' l

/-- `lines.join('\n')`. -/
def joinLines (ls : List (List Char)) : List Char :=
  (ls.intersperse ['\n']).flatten

/-- Split `l` at the first occurrence of the literal pattern `pat`
(`pat` nonempty): `some (before, after)` where `after` follows the matched
occurrence, `none` when `pat` does not occur. -/
def splitAtSub (pat : List Char) : List Char → Option (List Char × List Char)
  | [] => none
  | c :: cs =>
    if pat.isPrefixOf (c :: cs) then some ([], (c :: cs).drop pat.length)
    else
      match splitAtSub pat cs with
      | some (pre, post) => some (c :: pre, post)
      | none => none

/-- Does the literal pattern `pat` (nonempty) occur in `l`? -/
def containsSub (pat l : List Char) : Bool :=
  (splitAtSub pat l).isSome

/-- Global replacement of the literal nonempty pattern `pat` by `rep`
(JS `replace` with a global pattern built from a literal). -/
def replaceAllSubAux (pat rep : List Char) : Nat → List Char → List Char
  | 0, l => l
  | _ + 1, [] => []
  | fuel + 1, c :: cs =>
    if pat.isPrefixOf (c :: cs) then
      rep ++ replaceAllSubAux pat rep fuel ((c :: cs).drop pat.length)
    else c :: replaceAllSubAux pat rep fuel cs

/-- Global replacement of a literal nonempty pattern. -/
def replaceAllSub (pat rep l : List Char) : List Char :=
  replaceAllSubAux pat rep l.length l

/-!  ## Lists pass (`renderLists`) -/

/-- Per-line match of `/^(\s*)-\s+(.+)$/`: returns the item text (capture 2).
The leading `\s*` is greedy and deterministic here (a shorter whitespace run
would leave a whitespace character where `-` is required); after the dash,
`\s+` is greedy and backtracks one character when the rest of the line is
whitespace only, because `(.+)` needs at least one character. -/
def listItemUnordered (line : List Char) : Option (List Char) :=
  match line.dropWhile isWs with
  | [] => none
  | c :: rest2 =>
    if c = '-' then
      let w := (rest2.takeWhile isWs).length
      if w = 0 then none
      else if rest2.length = w then
        if 2 ≤ w then some (rest2.drop (w - 1)) else none
      else some (rest2.drop w)
    else none

/-- Per-line match of `/^(\s*)\d+\.\s+(.+)$/`: returns the item text. -/
def listItemOrdered (line : List Char) : Option (List Char) :=
  let rest := line.dropWhile isWs
  let ds := rest.takeWhile Char.isDigit
  if ds.isEmpty then none
  else
    match rest.drop ds.length with
    | [] => none
    | c :: rest2 =>
      if c = '.' then
        let w := (rest2.takeWhile isWs).length
        if w = 0 then none
        else if rest2.length = w then
          if 2 ≤ w then some (rest2.drop (w - 1)) else none
        else some (rest2.drop w)
      else none

/-- The body of `renderLists`: the loop over lines with the two flags
`inUnorderedList` / `inOrderedList`, emitting exactly the lines the source
pushes onto `result` (note the source pushes the opening tag of the new list
before the closing tag of the other list kind). -/
def renderListsGo : Bool → Bool → List (List Char) → List (List Char)
  | inUl, inOl, [] =>
    (if inUl then ["</ul>".data] else []) ++ (if inOl then ["</ol>".data] else [])
  | inUl, inOl, line :: ls =>
    match listItemUnordered line with
    | some item =>
      (if inUl then [] else ["<ul>".data]) ++
      (if inOl then ["</ol>".data] else []) ++
      ("<li>".data ++ item ++ "</li>".data) :: renderListsGo true false ls
    | none =>
      match listItemOrdered line with
      | some item =>
        (if inOl then [] else ["<ol>".data]) ++
        (if inUl then ["</ul>".data] else []) ++
        ("<li>".data ++ item ++ "</li>".data) :: renderListsGo false true ls
      | none =>
        (if inUl then ["</ul>".data] else []) ++
        (if inOl then ["</ol>".data] else []) ++
        line :: renderListsGo false false ls

/-- `renderLists` of the source: split into lines, run the loop, join. -/
def renderLists (content : List Char) : List Char :=
  joinLines (renderListsGo false false (splitLines content))

/-!  ## Heading id generation and headers -/

/-- `generateId` of the source:
`text.toLowerCase().replace(/[^\w\s-]/g, '').replace(/\s+/g, '-').trim()`
(note the trim comes after whitespace runs have already become hyphens). -/
def generateId (text : List Char) : List Char :=
  trimChars (collapseWsWith '-'
    ((text.map Char.toLower).filter fun c => isWordChar c || isWs c || c = '-'))

/-- Per-line match of the Markdown header pattern `/^(#{1,6})\s+(.+)$/`:
`some (level, rawText)` with `rawText` the untrimmed capture 2.  With more
than six leading `#` every greedy choice of the group leaves a `#` where
`\s+` must match, so there is no match; when everything after the hashes is
whitespace, `\s+` backtracks to leave one character for `(.+)`. -/
def matchMdHeader (line : List Char) : Option (Nat × List Char) :=
  let r := (line.takeWhile (· = '#')).length
  if r = 0 || 6 < r then none
  else
    let rest := line.drop r
    let w := (rest.takeWhile isWs).length
    if w = 0 then none
    else if rest.length = w then
      if 2 ≤ w then some (r, rest.drop (w - 1)) else none
    else some (r, rest.drop w)

/-- The replacement text of `renderHeaders` / `renderWikiHeaders`:
`<h${level} id="${generateId(text)}">${text.trim()}</h${level}>`. -/
def headerHtml (level : Nat) (text : List Char) : List Char :=
  "<h".data ++ natToChars level ++ " id=\"".data ++ generateId text ++ "\">".data ++
    trimChars text ++ "</h".data ++ natToChars level ++ ">".data

/-- `renderHeaders`: the per-line Markdown header replacement. -/
def renderHeaders (content : List Char) : List Char :=
  joinLines ((splitLines content).map fun line =>
    match matchMdHeader line with
    | some (level, text) => headerHtml level text
    | none => line)

/-- Per-line match of the wiki header pattern `/^(={1,5})\s*(.+?)\s*\1\s*$/`:
a direct simulation of the backtracking search (group 1 greedy from the
longest run of `=`, the two inner `\s*` greedy, `(.+?)` lazy), returning
`some (level, rawCapture2)` for the first combination that matches. -/
def matchWikiHeader (line : List Char) : Option (Nat × List Char) :=
  let r := min (line.takeWhile (· = '=')).length 5
  (List.range r).findSome? fun i =>
    let k := r - i
    let rest := line.drop k
    let sMax := (rest.takeWhile isWs).length
    (List.range (sMax + 1)).findSome? fun si =>
      let afterS := rest.drop (sMax - si)
      (List.range afterS.length).findSome? fun ti =>
        let text := afterS.take (ti + 1)
        let rem := afterS.drop (ti + 1)
        let wMax := (rem.takeWhile isWs).length
        (List.range (wMax + 1)).findSome? fun wi =>
          let afterW := rem.drop (wMax - wi)
          if afterW.take k == List.replicate k '=' &&
             (afterW.drop k).all isWs then
            some (k, text)
          else none

/-- `renderWikiHeaders`: the per-line wiki header replacement. -/
def renderWikiHeaders (content : List Char) : List Char :=
  joinLines ((splitLines content).map fun line =>
    match matchWikiHeader line with
    | some (level, text) => headerHtml level text
    | none => line)

/-- `renderHorizontalRules`: `/^---+$/gm` per line. -/
def renderHorizontalRules (content : List Char) : List Char :=
  joinLines ((splitLines content).map fun line =>
    if 3 ≤ line.length && line.all (· = '-') then "<hr>".data else line)

/-!  ## Code, emphasis and strikethrough passes -/

/-- Scanner for `/```([\s\S]*?)```/g`: a fence opens at three backticks and
the lazy group runs to the next three backticks; without a closing fence the
attempt fails and scanning moves on by one character. -/
def renderCodeBlocksAux : Nat → List Char → List Char
  | 0, l => l
  | _ + 1, [] => []
  | fuel + 1, c :: cs =>
    if "```".data.isPrefixOf (c :: cs) then
      match splitAtSub "```".data ((c :: cs).drop 3) with
      | some (code, rest) =>
        "<pre><code>".data ++ escapeHtml (trimChars code) ++ "</code></pre>".data ++
          renderCodeBlocksAux fuel rest
      | none => c :: renderCodeBlocksAux fuel cs
    else c :: renderCodeBlocksAux fuel cs

/-- `renderCodeBlocks` of the source. -/
def renderCodeBlocks (content : List Char) : List Char :=
  renderCodeBlocksAux content.length content

/-- Scanner for `` /`([^`]+)`/g ``: inline code spans (`$1` inserted raw). -/
def renderInlineCodeAux : Nat → List Char → List Char
  | 0, l => l
  | _ + 1, [] => []
  | fuel + 1, c :: cs =>
    if c = '`' then
      let code := cs.takeWhile (· ≠ '`')
      let rest := cs.dropWhile (· ≠ '`')
      if !code.isEmpty && !rest.isEmpty then
        "<code>".data ++ code ++ "</code>".data ++
          renderInlineCodeAux fuel (rest.drop 1)
      else c :: renderInlineCodeAux fuel cs
    else c :: renderInlineCodeAux fuel cs

/-- `renderInlineCode` of the source. -/
def renderInlineCode (content : List Char) : List Char :=
  renderInlineCodeAux content.length content

/-- Scanner for a pass of the shape `/DD([^D]+)DD/g` with a two-character
delimiter `DD` (both characters `d`), wrapping the capture in
`openTag`/`closeTag`: used for `renderBold` (`**` → `<strong>`),
`renderWikiBold` (`--` → `<strong>`) and `renderStrikethrough`
(`~~` → `<del>`). -/
def doubleDelimAux (d : Char) (openTag closeTag : List Char) :
    Nat → List Char → List Char
  | 0, l => l
  | _ + 1, [] => []
  | fuel + 1, c :: cs =>
    if [d, d].isPrefixOf (c :: cs) then
      let inner := (cs.drop 1).takeWhile (· ≠ d)
      let rest := (cs.drop 1).dropWhile (· ≠ d)
      if !inner.isEmpty && [d, d].isPrefixOf rest then
        openTag ++ inner ++ closeTag ++ doubleDelimAux d openTag closeTag fuel (rest.drop 2)
      else c :: doubleDelimAux d openTag closeTag fuel cs
    else c :: doubleDelimAux d openTag closeTag fuel cs

/-- `renderBold`: `/\*\*([^*]+)\*\*/g` → `<strong>$1</strong>`. -/
def renderBold (content : List Char) : List Char :=
  doubleDelimAux '*' "<strong>".data "</strong>".data content.length content

/-- `renderWikiBold`: `/--([^-]+)--/g` → `<strong>$1</strong>`. -/
def renderWikiBold (content : List Char) : List Char :=
  doubleDelimAux '-' "<strong>".data "</strong>".data content.length content

/-- `renderStrikethrough`: `/~~([^~]+)~~/g` → `<del>$1</del>`. -/
def renderStrikethrough (content : List Char) : List Char :=
  doubleDelimAux '~' "<del>".data "</del>".data content.length content

/-- Scanner for `renderItalic`: `/\*([^*]+)\*/g` → `<em>$1</em>`. -/
def renderItalicAux : Nat → List Char → List Char
  | 0, l => l
  | _ + 1, [] => []
  | fuel + 1, c :: cs =>
    if c = '*' then
      let inner := cs.takeWhile (· ≠ '*')
      let rest := cs.dropWhile (· ≠ '*')
      if !inner.isEmpty && !rest.isEmpty then
        "<em>".data ++ inner ++ "</em>".data ++ renderItalicAux fuel (rest.drop 1)
      else c :: renderItalicAux fuel cs
    else c :: renderItalicAux fuel cs

/-- `renderItalic` of the source. -/
def renderItalic (content : List Char) : List Char :=
  renderItalicAux content.length content

/-!  ## Tags, categories and table of contents -/

/-- A character of the tag word class `[가-힣a-zA-Z0-9_]`. -/
def isTagWordChar (c : Char) : Bool :=
  ('가' ≤ c && c ≤ '힣') || c.isAlphanum || c = '_'

/-- Match of the tag body after a `#`:
`([가-힣a-zA-Z0-9_][가-힣a-zA-Z0-9_\s]*[가-힣a-zA-Z0-9_]|[가-힣a-zA-Z0-9_]+)`.
The first alternative takes the maximal run of tag-word or whitespace
characters and backtracks its end to the last tag-word character; it needs
at least two characters, otherwise the second alternative matches a single
maximal tag-word run.  Returns `some (capture, remaining)`. -/
def tagMatch (cs : List Char) : Option (List Char × List Char) :=
  match cs with
  | [] => none
  | c :: _ =>
    if isTagWordChar c then
      let run := cs.takeWhile fun c => isTagWordChar c || isWs c
      let trimmedRun := (run.reverse.dropWhile isWs).reverse
      if 2 ≤ trimmedRun.length then some (trimmedRun, cs.drop trimmedRun.length)
      else some ([c], cs.drop 1)
    else none

/-- The replacement span of `renderTags` for normalized tag `nt`. -/
def tagSpanHtml (nt : List Char) : List Char :=
  "<span class=\"wiki-tag\" data-tag=\"".data ++ escapeHtml nt ++
    "\" onclick=\"app.showTaggedPages('".data ++ escapeHtml nt ++
    "')\">#".data ++ nt ++ "</span>".data

/-- Scanner for `renderTags`; the normalized tag is
`tag.trim().replace(/\s+/g, ' ')`. -/
def renderTagsAux : Nat → List Char → List Char
  | 0, l => l
  | _ + 1, [] => []
  | fuel + 1, c :: cs =>
    if c = '#' then
      match tagMatch cs with
      | some (tag, rest) =>
        tagSpanHtml (collapseWsWith ' ' (trimChars tag)) ++ renderTagsAux fuel rest
      | none => c :: renderTagsAux fuel cs
    else c :: renderTagsAux fuel cs

/-- `renderTags` of the source. -/
def renderTags (content : List Char) : List Char :=
  renderTagsAux content.length content

/-- Scanner for `renderCategories`: `/\[\[분류:([^\]]+)\]\]/g`. -/
def renderCategoriesAux : Nat → List Char → List Char
  | 0, l => l
  | _ + 1, [] => []
  | fuel + 1, c :: cs =>
    if "[[분류:".data.isPrefixOf (c :: cs) then
      let inner := ((c :: cs).drop 5).takeWhile (· ≠ ']')
      let rest := ((c :: cs).drop 5).dropWhile (· ≠ ']')
      if !inner.isEmpty && "]]".data.isPrefixOf rest then
        let categoryName := trimChars inner
        "<div class=\"wiki-category category-link\" data-category=\"".data ++
          escapeHtml ("분류:".data ++ categoryName) ++
          "\"><span class=\"category-label\">분류:</span> <span class=\"category-name\">".data ++
          escapeHtml categoryName ++ "</span></div>".data ++
          renderCategoriesAux fuel (rest.drop 2)
      else c :: renderCategoriesAux fuel cs
    else c :: renderCategoriesAux fuel cs

/-- `renderCategories` of the source. -/
def renderCategories (content : List Char) : List Char :=
  renderCategoriesAux content.length content

/-- A table-of-contents entry, as built by `generateTOC`. -/
structure TocEntry where
  level : Nat
  text : List Char
  id : List Char
  position : Nat
deriving Repr, DecidableEq

/-- `generateTOC` of `src/js/renderer.js`: scan each line for a Markdown
header first, then a wiki header; the stored text is the trimmed capture and
the id is generated from that trimmed text. -/
def generateTOC (content : List Char) : List TocEntry :=
  ((splitLines content).enum.filterMap fun li =>
    match matchMdHeader li.2 with
    | some (level, text) => some ⟨level, trimChars text, generateId (trimChars text), li.1⟩
    | none =>
      match matchWikiHeader li.2 with
      | some (level, text) => some ⟨level, trimChars text, generateId (trimChars text), li.1⟩
      | none => none)

/-- One `<li>` line of the generated TOC block, with the two-space indent per
level (`'  '.repeat(item.level - 1)`). -/
def tocItemHtml (e : TocEntry) : List Char :=
  List.replicate (2 * (e.level - 1)) ' ' ++ "<li><a href=\"#".data ++ e.id ++
    "\">".data ++ e.text ++ "</a></li>".data

/-- `renderTableOfContents`: every literal `[목차]` marker is replaced by the
TOC block generated from the whole input (the callback closes over the
original `content`), or by the empty string when there are no headers. -/
def renderTableOfContents (content : List Char) : List Char :=
  let toc := generateTOC content
  let rep :=
    if toc.isEmpty then []
    else
      "<div class=\"wiki-toc\"><h4>목차</h4><ul>".data ++
        (toc.map tocItemHtml).flatten ++ "</ul></div>".data
  replaceAllSub "[목차]".data rep content

/-!  ## Footnotes -/

/-- A footnote record collected during one `renderFootnotes` pass. -/
structure Footnote where
  id : List Char
  backrefId : List Char
  number : Nat
  content : List Char
deriving Repr, DecidableEq

/-- Try the footnote pattern `/([^\[\s]+)\[\*\s*([^\]]+)\]/` at the head of
`l`: the anchor is the maximal run of non-space non-bracket characters, then
the literal `[*`, then the raw span up to the first `]` (the `\s*` consumes
leading whitespace but the stored content is trimmed anyway, so the raw span
is returned and trimmed at the use site).  `some (anchor, rawSpan,
remaining)` on success. -/
def fnTryMatch (l : List Char) : Option (List Char × List Char × List Char) :=
  match l with
  | [] => none
  | c :: _ =>
    if c ≠ '[' && !isWs c then
      let run := l.takeWhile fun c => c ≠ '[' && !isWs c
      let rest := l.drop run.length
      if "[*".data.isPrefixOf rest then
        let t := (rest.drop 2).takeWhile (· ≠ ']')
        let rest2 := (rest.drop 2).dropWhile (· ≠ ']')
        if !t.isEmpty && !rest2.isEmpty then some (run, t, rest2.drop 1)
        else none
      else none
    else none

/-- The superscripted in-text anchor emitted for footnote number `n`
(the `src/js/renderer.js` variant with the `onclick` handlers). -/
def fnSupHtml (n : Nat) : List Char :=
  "<sup><a href=\"javascript:void(0)\" id=\"backref-".data ++ natToChars n ++
    "\" class=\"footnote-ref\" onclick=\"event.preventDefault(); toggleFootnote('footnote-".data ++
    natToChars n ++ "'); return false;\">".data ++ natToChars n ++ "</a></sup>".data

/-- The footnote scanner: body text with anchors replaced, plus the collected
footnote records; `counter` is the running footnote number. -/
def renderFootnotesAux : Nat → Nat → List Char → List Char × List Footnote
  | 0, _, l => (l, [])
  | _ + 1, _, [] => ([], [])
  | fuel + 1, counter, c :: cs =>
    match fnTryMatch (c :: cs) with
    | some (run, t, rest) =>
      let fn : Footnote :=
        ⟨"footnote-".data ++ natToChars counter,
         "backref-".data ++ natToChars counter, counter, trimChars t⟩
      let r := renderFootnotesAux fuel (counter + 1) rest
      (run ++ fnSupHtml counter ++ r.1, fn :: r.2)
    | none =>
      let r := renderFootnotesAux fuel counter cs
      (c :: r.1, r.2)

/-- One `<li>` entry of the trailing footnote list (the multi-line template
literal of the source, whitespace included). -/
def fnListItemHtml (fn : Footnote) : List Char :=
  "<li id=\"".data ++ fn.id ++ "\" class=\"footnote\">\n                    <span class=\"footnote-content\">".data ++
    fn.content ++
    "</span>\n                    <a href=\"javascript:void(0)\" class=\"footnote-backref\" onclick=\"event.preventDefault(); scrollToBackref('".data ++
    fn.backrefId ++
    "'); return false;\" title=\"본문으로 돌아가기\">↑</a>\n                </li>".data

/-- The trailing footnotes section for a nonempty footnote list. -/
def fnSectionHtml (fns : List Footnote) : List Char :=
  "<div class=\"footnotes-section\"><hr><h4>각주</h4><ol class=\"footnotes-list\">".data ++
    (fns.map fnListItemHtml).flatten ++ "</ol></div>".data

/-- `renderFootnotes` of the source: numbering starts at 1; the footnotes
section is appended only when at least one footnote was found. -/
def renderFootnotes (content : List Char) : List Char :=
  let r := renderFootnotesAux content.length 1 content
  if r.2.isEmpty then r.1 else r.1 ++ fnSectionHtml r.2

/-!  ## Images -/

/-- The replacement for an image reference resolved through the external
image lookup (`storage.getImage`): `lookup` returns the stored data URI, or
`none` for a missing image, which yields the inline error span. -/
def imageHtml (lookup : List Char → Option (List Char))
    (imageName caption : List Char) : List Char :=
  match lookup imageName with
  | some dataUri =>
    "<img src=\"".data ++ dataUri ++ "\" alt=\"".data ++ escapeHtml imageName ++
      "\" title=\"".data ++ escapeHtml imageName ++ "\">".data ++
      (if caption.isEmpty then []
       else "<div class=\"image-caption\">".data ++ escapeHtml caption ++ "</div>".data)
  | none =>
    "<span style=\"color: #ef4444; font-style: italic;\">[이미지 \"".data ++
      escapeHtml imageName ++ "\"를 찾을 수 없습니다]</span>".data

/-- Scanner for `renderImages`: `/!\[([^\]]+)\]/g`; the bracket text splits
at `|` into name and optional caption, both trimmed. -/
def renderImagesAux (lookup : List Char → Option (List Char)) :
    Nat → List Char → List Char
  | 0, l => l
  | _ + 1, [] => []
  | fuel + 1, c :: cs =>
    if "![".data.isPrefixOf (c :: cs) then
      let inner := ((c :: cs).drop 2).takeWhile (· ≠ ']')
      let rest := ((c :: cs).drop 2).dropWhile (· ≠ ']')
      if !inner.isEmpty && !rest.isEmpty then
        let parts := splitOnChar '|' inner
        let imageName := trimChars (parts.headD [])
        let caption := trimChars ((parts.drop 1).headD [])
        imageHtml lookup imageName caption ++ renderImagesAux lookup fuel (rest.drop 1)
      else c :: renderImagesAux lookup fuel cs
    else c :: renderImagesAux lookup fuel cs

/-- `renderImages` of the source, with the storage lookup passed in. -/
def renderImages (lookup : List Char → Option (List Char)) (content : List Char) :
    List Char :=
  renderImagesAux lookup content.length content

/-!  ## Blockquotes -/

/-- Per-line match of `/^>\s+(.+)$/` (same whitespace backtracking as for
headers when the rest of the line is all whitespace). -/
def bqLineMatch (line : List Char) : Option (List Char) :=
  match line with
  | [] => none
  | c :: rest =>
    if c = '>' then
      let w := (rest.takeWhile isWs).length
      if w = 0 then none
      else if rest.length = w then
        if 2 ≤ w then some (rest.drop (w - 1)) else none
      else some (rest.drop w)
    else none

/-- The line loop of `renderBlockquotes`: contiguous quote lines accumulate
into one `<blockquote>`, joined with single spaces. -/
def renderBlockquotesGo : Bool → List Char → List (List Char) → List (List Char)
  | inBq, acc, [] =>
    if inBq then ["<blockquote>".data ++ acc ++ "</blockquote>".data] else []
  | inBq, acc, line :: ls =>
    match bqLineMatch line with
    | some quoted =>
      renderBlockquotesGo true (if acc.isEmpty then quoted else acc ++ ' ' :: quoted) ls
    | none =>
      if inBq then
        ("<blockquote>".data ++ acc ++ "</blockquote>".data) ::
          line :: renderBlockquotesGo false [] ls
      else line :: renderBlockquotesGo false acc ls

/-- `renderBlockquotes` of the source. -/
def renderBlockquotes (content : List Char) : List Char :=
  joinLines (renderBlockquotesGo false [] (splitLines content))

/-!  ## Links -/

/-- The replacement of `renderLinks`, given the link encoder the application
supplies (`window.app.pageNameToPunycode`): internal targets are those
without `://` and not starting with `#`. -/
def linkHtml (enc : List Char → List Char) (text url : List Char) : List Char :=
  if !containsSub "://".data url && url.headD ' ' ≠ '#' then
    "<a href=\"/".data ++ enc url ++ "\" class=\"internal-link\" data-page=\"".data ++
      url ++ "\">".data ++ text ++ "</a>".data
  else
    "<a href=\"".data ++ url ++ "\" target=\"_blank\" rel=\"noopener noreferrer\">".data ++
      text ++ "</a>".data

/-- Scanner for `renderLinks`: `/\[([^\]]+)\]\(([^)]+)\)/g`. -/
def renderLinksAux (enc : List Char → List Char) : Nat → List Char → List Char
  | 0, l => l
  | _ + 1, [] => []
  | fuel + 1, c :: cs =>
    if c = '[' then
      let text := cs.takeWhile (· ≠ ']')
      let rest := cs.dropWhile (· ≠ ']')
      if !text.isEmpty && "](".data.isPrefixOf rest then
        let url := (rest.drop 2).takeWhile (· ≠ ')')
        let rest2 := (rest.drop 2).dropWhile (· ≠ ')')
        if !url.isEmpty && !rest2.isEmpty then
          linkHtml enc text url ++ renderLinksAux enc fuel (rest2.drop 1)
        else c :: renderLinksAux enc fuel cs
      else c :: renderLinksAux enc fuel cs
    else c :: renderLinksAux enc fuel cs

/-- `renderLinks` of the source, with the link encoder passed in. -/
def renderLinks (enc : List Char → List Char) (content : List Char) : List Char :=
  renderLinksAux enc content.length content

/-!  ## Paragraphs -/

/-- Does the trimmed line start with `\d+\. ` (digits, dot, one space)? -/
def startsWithNumDot (l : List Char) : Bool :=
  let ds := l.takeWhile Char.isDigit
  !ds.isEmpty && ". ".data.isPrefixOf (l.drop ds.length)

/-- The `isBlockElement` test of `renderParagraphs`, on the trimmed line. -/
def isBlockElement (trimmed : List Char) : Bool :=
  trimmed.isEmpty || trimmed.headD ' ' = '<' || trimmed.headD ' ' = '#' ||
    trimmed == "<hr>".data || "- ".data.isPrefixOf trimmed ||
    "* ".data.isPrefixOf trimmed || startsWithNumDot trimmed ||
    "> ".data.isPrefixOf trimmed || "```".data.isPrefixOf trimmed

/-- The line loop of `renderParagraphs`: plain lines accumulate (joined with
single spaces) and are flushed as one `<p>` at each block-element boundary;
block lines are emitted untrimmed, empty lines dropped. -/
def renderParagraphsGo : List Char → List (List Char) → List (List Char)
  | acc, [] => if acc.isEmpty then [] else ["<p>".data ++ trimChars acc ++ "</p>".data]
  | acc, line :: ls =>
    let trimmed := trimChars line
    if isBlockElement trimmed then
      (if acc.isEmpty then [] else ["<p>".data ++ trimChars acc ++ "</p>".data]) ++
        (if trimmed.isEmpty then [] else [line]) ++ renderParagraphsGo [] ls
    else renderParagraphsGo (if acc.isEmpty then trimmed else acc ++ ' ' :: trimmed) ls

/-- `renderParagraphs` of the source. -/
def renderParagraphs (content : List Char) : List Char :=
  joinLines (renderParagraphsGo [] (splitLines content))

/-!  ## The full pipeline of `render` (`src/js/renderer.js`) -/

/-- The pass pipeline of `render` on nonempty content: wiki-specific syntax
first, then standard markdown, in the exact order of the source. -/
def renderBody (lookup : List Char → Option (List Char))
    (enc : List Char → List Char) (content : List Char) : List Char :=
  let h1 := renderWikiHeaders content
  let h2 := renderCategories h1
  let h3 := renderTags h2
  let h4 := renderTableOfContents h3
  let h5 := renderFootnotes h4
  let h6 := renderWikiBold h5
  let h7 := renderStrikethrough h6
  let h8 := renderHeaders h7
  let h9 := renderHorizontalRules h8
  let h10 := renderCodeBlocks h9
  let h11 := renderInlineCode h10
  let h12 := renderImages lookup h11
  let h13 := renderBold h12
  let h14 := renderItalic h13
  let h15 := renderBlockquotes h14
  let h16 := renderLinks enc h15
  let h17 := renderLists h16
  renderParagraphs h17

/-- The fixed placeholder returned for empty (falsy) input. -/
def emptyPlaceholder : String :=
  "<p><em>이 페이지는 비어있습니다. 편집 버튼을 클릭하여 내용을 추가하세요.</em></p>"

/-- `render` of `src/js/renderer.js`; the argument is an `Option String` so
that the JS call `render(null)` is `render lookup enc none` and the falsy
test `!content` also catches the empty string. -/
def render (lookup : List Char → Option (List Char))
    (enc : List Char → List Char) : Option String → String
  | none => emptyPlaceholder
  | some s => if s = "" then emptyPlaceholder else String.mk (renderBody lookup enc s.data)

/-!  ## Search highlighting -/

/-- `escapeRegex` of the source: `text.replace(/[.*+?^${}()|[\]\\]/g, "\\$&")`
(every regular-expression metacharacter gets a backslash in front, so the
pattern built from the result matches the text literally). -/
def escapeRegex (l : List Char) : List Char :=
  (l.map fun c =>
    if c ∈ ['.', '*', '+', '?', '^', '$', '{', '}', '(', ')', '|', '[', ']', '\\']
    then ['\\', c] else [c]).flatten

/-- Case-insensitive comparison of characters, as the regex `i` flag. -/
def eqCI (a b : Char) : Bool := a.toLower = b.toLower

/-- Is `pat` a case-insensitive prefix of `l`? -/
def isPrefixCI : List Char → List Char → Bool
  | [], _ => true
  | _ :: _, [] => false
  | p :: ps, c :: cs => eqCI p c && isPrefixCI ps cs

/-- Does `pat` occur case-insensitively in `l`? -/
def occursCI (pat : List Char) : List Char → Bool
  | [] => isPrefixCI pat []
  | c :: cs => isPrefixCI pat (c :: cs) || occursCI pat cs

/-- Scanner for `content.replace(new RegExp(escapeRegex(term), 'gi'),
'<mark>$1</mark>')`: since `escapeRegex` escapes every metacharacter the
pattern matches `term` literally, case-insensitively; `$1` keeps the casing
found in the content. -/
def highlightAux (term : List Char) : Nat → List Char → List Char
  | 0, l => l
  | _ + 1, [] => []
  | fuel + 1, c :: cs =>
    if isPrefixCI term (c :: cs) then
      "<mark>".data ++ (c :: cs).take term.length ++ "</mark>".data ++
        highlightAux term fuel ((c :: cs).drop term.length)
    else c :: highlightAux term fuel cs

/-- `highlightSearchTerm` of the source (empty term returns the content
unchanged, mirroring the falsy guard). -/
def highlightSearchTerm (content term : List Char) : List Char :=
  if term.isEmpty then content
  else highlightAux term content.length content

/-- Deduplication with JS `Set` semantics (`[...new Set(links)]`): the first
occurrence of each element is kept, in insertion order; `seen` accumulates
the elements already emitted. -/
def dedupFirstAux (seen : List (List Char)) : List (List Char) → List (List Char)
  | [] => []
  | a :: l =>
    if a ∈ seen then dedupFirstAux seen l
    else a :: dedupFirstAux (a :: seen) l

/-- `[...new Set(links)]`. -/
def dedupFirst (l : List (List Char)) : List (List Char) :=
  dedupFirstAux [] l

/-! ## The extended renderer variant (unnamed repository file `part_001`)

The version of the renderer with Namuwiki-style links and YouTube embeds;
only its members that differ from `src/js/renderer.js` are embedded here. -/

namespace Ext

/-- Capture collector for the `exec` loop over
`internalLinkPattern = /\[([^\]]+)\]\(([^):/]+)\)(?!\w)/g`: the url captures
(group 2) of the successive matches, in order.  The negative lookahead
requires the character after `)` to be absent or not a word character. -/
def internalLinkUrlsAux : Nat → List Char → List (List Char)
  | 0, _ => []
  | _ + 1, [] => []
  | fuel + 1, c :: cs =>
    if c = '[' then
      let text := cs.takeWhile (· ≠ ']')
      let rest := cs.dropWhile (· ≠ ']')
      if !text.isEmpty && "](".data.isPrefixOf rest then
        let url := (rest.drop 2).takeWhile fun c => c ≠ ')' && c ≠ ':' && c ≠ '/'
        let rest2 := (rest.drop 2).dropWhile fun c => c ≠ ')' && c ≠ ':' && c ≠ '/'
        if !url.isEmpty && rest2.headD ' ' = ')' &&
           !isWordChar ((rest2.drop 1).headD ' ') then
          url :: internalLinkUrlsAux fuel (rest2.drop 1)
        else internalLinkUrlsAux fuel cs
      else internalLinkUrlsAux fuel cs
    else internalLinkUrlsAux fuel cs

/-- The url captures of `internalLinkPattern` over the whole content. -/
def internalLinkUrls (content : List Char) : List (List Char) :=
  internalLinkUrlsAux content.length content

/-- Capture collector for the `exec` loop over
`namuwikiLinkPattern = /\[\[([^|\]]+)(?:\|([^\]]+))?\]\]/g`: the target
captures (group 1), in order. -/
def namuwikiTargetsAux : Nat → List Char → List (List Char)
  | 0, _ => []
  | _ + 1, [] => []
  | fuel + 1, c :: cs =>
    if "[[".data.isPrefixOf (c :: cs) then
      let target := (cs.drop 1).takeWhile fun c => c ≠ '|' && c ≠ ']'
      let rest := (cs.drop 1).dropWhile fun c => c ≠ '|' && c ≠ ']'
      if target.isEmpty then namuwikiTargetsAux fuel cs
      else
        match rest with
        | '|' :: rest2 =>
          let display := rest2.takeWhile (· ≠ ']')
          let rest3 := rest2.dropWhile (· ≠ ']')
          if !display.isEmpty && "]]".data.isPrefixOf rest3 then
            target :: namuwikiTargetsAux fuel (rest3.drop 2)
          else namuwikiTargetsAux fuel cs
        | ']' :: ']' :: rest2 => target :: namuwikiTargetsAux fuel rest2
        | _ => namuwikiTargetsAux fuel cs
    else namuwikiTargetsAux fuel cs

/-- The target captures of `namuwikiLinkPattern` over the whole content. -/
def namuwikiTargets (content : List Char) : List (List Char) :=
  namuwikiTargetsAux content.length content

/-- `getLinkedPages` of the extended renderer: Markdown-style internal link
targets (those without `://` and not starting with `#`) first, then
Namuwiki-style targets, deduplicated with `Set` semantics. -/
def getLinkedPages (content : String) : List String :=
  let md := (internalLinkUrls content.data).filter fun u =>
    !containsSub "://".data u && u.headD ' ' ≠ '#'
  (dedupFirst (md ++ namuwikiTargets content.data)).map String.mk

/-- The allow-list character class `[a-zA-Z0-9_-]` of the YouTube embed
pattern and of the sanitizer. -/
def isYtChar (c : Char) : Bool :=
  c.isAlphanum || c = '_' || c = '-'

/-- `videoId.replace(/[^a-zA-Z0-9_-]/g, '')`. -/
def sanitizeVideoId (l : List Char) : List Char :=
  l.filter isYtChar

/-- The sandboxed lazy-loading embed block interpolating the sanitized video
id (the multi-line template literal of the source, whitespace included). -/
def ytEmbedHtml (cleanVideoId : List Char) : List Char :=
  "<div class=\"youtube-embed-container\">\n                <div class=\"youtube-loading\">동영상을 불러오는 중...</div>\n                <iframe \n                    class=\"youtube-embed\" \n                    src=\"https://www.youtube-nocookie.com/embed/".data ++
    cleanVideoId ++
    "?rel=0&modestbranding=1\" \n                    title=\"YouTube video: ".data ++
    cleanVideoId ++
    "\" \n                    frameborder=\"0\" \n                    allow=\"accelerometer; autoplay; clipboard-write; encrypted-media; gyroscope; picture-in-picture\" \n                    allowfullscreen\n                    loading=\"lazy\"\n                    onload=\"this.previousElementSibling.style.display='none';\"\n                    onerror=\"this.previousElementSibling.textContent='동영상을 불러올 수 없습니다.';\">\n                </iframe>\n            </div>".data

/-- Scanner for `renderYouTubeEmbeds`
(`/\[\[htp:\/\/yt\.([a-zA-Z0-9_-]+)\]\]/g`), returning the rendered output
together with the video-id captures of the successive matches.  The guard
`if (!cleanVideoId) return match` of the source is kept, although the
capture class makes it unreachable. -/
def ytScanAux : Nat → List Char → List Char × List (List Char)
  | 0, l => (l, [])
  | _ + 1, [] => ([], [])
  | fuel + 1, c :: cs =>
    if "[[htp://yt.".data.isPrefixOf (c :: cs) then
      let vid := ((c :: cs).drop 11).takeWhile isYtChar
      let rest := ((c :: cs).drop 11).dropWhile isYtChar
      if !vid.isEmpty && "]]".data.isPrefixOf rest then
        let clean := sanitizeVideoId vid
        let r := ytScanAux fuel (rest.drop 2)
        if clean.isEmpty then
          ("[[htp://yt.".data ++ vid ++ "]]".data ++ r.1, vid :: r.2)
        else (ytEmbedHtml clean ++ r.1, vid :: r.2)
      else
        let r := ytScanAux fuel cs
        (c :: r.1, r.2)
    else
      let r := ytScanAux fuel cs
      (c :: r.1, r.2)

/-- `renderYouTubeEmbeds` of the extended renderer. -/
def renderYouTubeEmbeds (content : List Char) : List Char :=
  (ytScanAux content.length content).1

/-- The video-id captures `renderYouTubeEmbeds` matches in `content`. -/
def ytCaptures (content : List Char) : List (List Char) :=
  (ytScanAux content.length content).2

end Ext

/-!  ## Observation helpers used by the statements -/

/-- The number of positions of `l` at which the pattern `pat` occurs. -/
def countSub (pat : List Char) : List Char → Nat
  | [] => 0
  | c :: cs => (if pat.isPrefixOf (c :: cs) then 1 else 0) + countSub pat cs

/-- The index of the first occurrence of `pat` in `l`, when there is one. -/
def subPos (pat l : List Char) : Option Nat :=
  (splitAtSub pat l).map fun pr => pr.1.length

/-- Does the first occurrence of `p` come strictly before the first
occurrence of `q` (both patterns occurring)? -/
def beforeSub (p q l : List Char) : Bool :=
  match subPos p l, subPos q l with
  | some i, some j => decide (i < j)
  | _, _ => false

/-- Line-level balance of one tag pair over a list of output lines: every
closing line is preceded by a matching open and the depth returns to the
initial `d` argument being zero at the end. -/
def tagBalanced (openT closeT : List Char) : List (List Char) → Nat → Bool
  | [], d => d == 0
  | l :: ls, d =>
    if l = openT then tagBalanced openT closeT ls (d + 1)
    else if l = closeT then decide (0 < d) && tagBalanced openT closeT ls (d - 1)
    else tagBalanced openT closeT ls d

/-- The footnote records one `renderFootnotes` pass collects (numbering
starts at 1, as in the source). -/
def footnoteRecords (content : List Char) : List Footnote :=
  (renderFootnotesAux content.length 1 content).2

/-- The body text produced by one `renderFootnotes` pass (the content with
the in-text anchors substituted, before the trailing section is appended). -/
def footnoteBody (content : List Char) : List Char :=
  (renderFootnotesAux content.length 1 content).1

/-- Modelled from the spec: the string-based HTML-entity escaper over
`&`, `<`, `>`, `"` and `'` that the specification's `htmlEscape` describes
(the code of `render` never applies such an escaper to plain paragraph
text; this definition exists to compare the specified output against the
embedded one). -/
def specHtmlEscape (l : List Char) : List Char :=
  (l.map fun c =>
    if c = '&' then "&amp;".data
    else if c = '<' then "&lt;".data
    else if c = '>' then "&gt;".data
    else if c = '"' then "&quot;".data
    else if c = '\'' then "&#39;".data
    else [c]).flatten

/-- A character that triggers none of the render passes: not a header, rule,
code, emphasis, link/image/footnote/category/embed bracket, list, quote,
strikethrough, tag or wiki-header character, not a raw HTML opener, and not
a line break. -/
def plainChar (c : Char) : Bool :=
  c ≠ '#' && c ≠ '*' && c ≠ '-' && c ≠ '`' && c ≠ '[' && c ≠ '~' && c ≠ '=' &&
    c ≠ '<' && c ≠ '>' && c ≠ '\n'

/-- A nonempty single-line plain text: every character plain, not starting
with whitespace (which would be trimmed, and could introduce a list marker
context) or a digit (ordered-list marker), not ending with whitespace. -/
def isPlainLine (s : List Char) : Bool :=
  !s.isEmpty && s.all plainChar && !isWs (s.headD ' ') &&
    !(s.headD ' ').isDigit && !isWs (s.getLastD ' ')

/-!  ## Lemmas about deduplication -/

theorem dedupFirstAux_not_mem_seen :
    ∀ (l seen : List (List Char)) (x : List Char),
      x ∈ dedupFirstAux seen l → x ∉ seen := by
  intro l
  induction l with
  | nil => intro seen x hx; simp [dedupFirstAux] at hx
  | cons a l ih =>
    intro seen x hx
    by_cases ha : a ∈ seen
    · rw [dedupFirstAux, if_pos ha] at hx
      exact ih seen x hx
    · rw [dedupFirstAux, if_neg ha] at hx
      rcases List.mem_cons.mp hx with rfl | hx'
      · exact ha
      · intro hs
        exact ih (a :: seen) x hx' (List.mem_cons_of_mem a hs)

theorem dedupFirstAux_nodup :
    ∀ (l seen : List (List Char)), (dedupFirstAux seen l).Nodup := by
  intro l
  induction l with
  | nil => intro seen; simp [dedupFirstAux]
  | cons a l ih =>
    intro seen
    by_cases ha : a ∈ seen
    · rw [dedupFirstAux, if_pos ha]; exact ih seen
    · rw [dedupFirstAux, if_neg ha]
      refine List.nodup_cons.mpr ⟨fun hmem => ?_, ih (a :: seen)⟩
      exact dedupFirstAux_not_mem_seen l (a :: seen) a hmem (List.mem_cons_self a seen)

/-!  ## Lemmas about search highlighting -/

theorem isPrefixCI_length : ∀ (p l : List Char), isPrefixCI p l = true → p.length ≤ l.length := by
  intro p
  induction p with
  | nil => intro l _; simp
  | cons a ps ih =>
    intro l h
    cases l with
    | nil => simp [isPrefixCI] at h
    | cons c cs =>
      rw [isPrefixCI, Bool.and_eq_true] at h
      simpa [Nat.succ_le_succ_iff] using ih cs h.2

theorem highlightAux_length (term : List Char) :
    ∀ (fuel : Nat) (l : List Char), l.length ≤ (highlightAux term fuel l).length := by
  intro fuel
  induction fuel with
  | zero => intro l; simp [highlightAux]
  | succ fuel ih =>
    intro l
    cases l with
    | nil => simp [highlightAux]
    | cons c cs =>
      by_cases h : isPrefixCI term (c :: cs) = true
      · have hlen := isPrefixCI_length term (c :: cs) h
        have hrec := ih ((c :: cs).drop term.length)
        rw [highlightAux, if_pos h]
        simp only [List.length_append, List.length_take, List.length_drop,
          List.length_cons] at *
        omega
      · rw [highlightAux, if_neg h]
        have := ih cs
        simp only [List.length_cons]
        omega

theorem highlightAux_no_occur (term : List Char) :
    ∀ (fuel : Nat) (l : List Char), occursCI term l = false → highlightAux term fuel l = l := by
  intro fuel
  induction fuel with
  | zero => intro l _; rfl
  | succ fuel ih =>
    intro l hocc
    cases l with
    | nil => rfl
    | cons c cs =>
      rw [occursCI, Bool.or_eq_false_iff] at hocc
      rw [highlightAux, if_neg (by simp [hocc.1]), ih cs hocc.2]

theorem highlightAux_occur_length (term : List Char) (hterm : term ≠ []) :
    ∀ (fuel : Nat) (l : List Char), l.length ≤ fuel → occursCI term l = true →
      l.length < (highlightAux term fuel l).length := by
  intro fuel
  induction fuel with
  | zero =>
    intro l hl hocc
    have : l = [] := List.length_eq_zero.mp (Nat.le_zero.mp hl)
    subst this
    cases term with
    | nil => exact absurd rfl hterm
    | cons t ts => simp [occursCI, isPrefixCI] at hocc
  | succ fuel ih =>
    intro l hl hocc
    cases l with
    | nil =>
      cases term with
      | nil => exact absurd rfl hterm
      | cons t ts => simp [occursCI, isPrefixCI] at hocc
    | cons c cs =>
      by_cases h : isPrefixCI term (c :: cs) = true
      · have hlen := isPrefixCI_length term (c :: cs) h
        have hrec := highlightAux_length term fuel ((c :: cs).drop term.length)
        rw [highlightAux, if_pos h]
        simp only [List.length_append, List.length_take, List.length_drop,
          List.length_cons] at *
        omega
      · rw [occursCI, Bool.or_eq_true] at hocc
        rcases hocc with hocc | hocc
        · exact absurd hocc h
        · rw [highlightAux, if_neg h]
          have := ih cs (by simpa [Nat.succ_le_succ_iff] using hl) hocc
          simp only [List.length_cons]
          omega

/-!  ## Lemmas about the YouTube embed captures -/

theorem takeWhile_all_self (p : Char → Bool) :
    ∀ l : List Char, (l.takeWhile p).all p = true := by
  intro l
  induction l with
  | nil => rfl
  | cons c cs ih =>
    by_cases h : p c = true
    · simp [List.takeWhile_cons, h, ih]
    · simp [List.takeWhile_cons, h]

theorem ytScanAux_captures :
    ∀ (fuel : Nat) (l v : List Char), v ∈ (Ext.ytScanAux fuel l).2 →
      v ≠ [] ∧ v.all Ext.isYtChar = true := by
  intro fuel
  induction fuel with
  | zero => intro l v hv; simp [Ext.ytScanAux] at hv
  | succ fuel ih =>
    intro l v hv
    cases l with
    | nil => simp [Ext.ytScanAux] at hv
    | cons c cs =>
      simp only [Ext.ytScanAux] at hv
      split at hv
      · split at hv
        · rename_i hm
          rw [Bool.and_eq_true, Bool.not_eq_true'] at hm
          split at hv <;>
          · simp only at hv
            rcases List.mem_cons.mp hv with rfl | hv'
            · exact ⟨by simpa [List.isEmpty_iff] using hm.1, takeWhile_all_self _ _⟩
            · exact ih _ v hv'
        · simp only at hv
          exact ih cs v hv
      · simp only at hv
        exact ih cs v hv

/-!  ## Claim theorems (simple group) -/

/-- C8: `render` of the empty string and `render` of `null` both return the
same fixed page-is-empty placeholder markup, and (being total functions of
the embedding) neither call fails. -/
theorem c8_empty_render :
    ∀ (lookup : List Char → Option (List Char)) (enc : List Char → List Char),
      render lookup enc none = emptyPlaceholder ∧
      render lookup enc (some "") = emptyPlaceholder ∧
      render lookup enc none = render lookup enc (some "") :=
  fun _ _ => ⟨rfl, rfl, rfl⟩

/-- C9: heading anchor ids are generated deterministically by the
lower-case / strip / collapse-whitespace-to-hyphens / trim pipeline of
`generateId`; in particular the table of contents of `"# Hello World"` is
one entry whose anchor id is exactly `"hello-world"`. -/
theorem c9_toc_anchor :
    generateTOC "# Hello World".data =
      [⟨1, "Hello World".data, "hello-world".data, 0⟩] ∧
    (generateTOC "# Hello World".data).map TocEntry.id = ["hello-world".data] ∧
    generateId "Hello World".data = "hello-world".data :=
  ⟨by decide, by decide, by decide⟩

/-- C2: `getLinkedPages` (of the extended renderer the claim's code
reference names) recognizes both the Markdown form and the wiki form of
internal links and deduplicates: the result is always without duplicates,
and on `"[[A]] and [B](C)"` it is exactly the set containing `"A"` and
`"C"`. -/
theorem c2_linked_pages :
    (∀ content : String, (Ext.getLinkedPages content).Nodup) ∧
    Ext.getLinkedPages "[[A]] and [B](C)" = ["C", "A"] ∧
    (∀ x : String, x ∈ Ext.getLinkedPages "[[A]] and [B](C)" ↔ x = "A" ∨ x = "C") := by
  refine ⟨?_, by decide, ?_⟩
  · intro content
    refine List.Nodup.map (fun a b hab => ?_) (dedupFirstAux_nodup _ [])
    simpa using congrArg String.data hab
  · intro x
    rw [show Ext.getLinkedPages "[[A]] and [B](C)" = ["C", "A"] from by decide]
    simp [or_comm]

/-- C4 counterexample: `highlightSearchTerm` is not idempotent — applying it
a second time with the same term to its own output wraps again (already the
letter `b` inside the inserted markup of `highlight("abc","b")` is wrapped
once more). -/
theorem c4_counterexample :
    highlightSearchTerm (highlightSearchTerm "abc".data "b".data) "b".data ≠
      highlightSearchTerm "abc".data "b".data := by decide

/-- C4 (amended): `highlightSearchTerm` wraps every case-insensitive literal
occurrence of the term in the highlight marker (for a nonempty term it
returns the content unchanged exactly when the term does not occur
case-insensitively), but the operation is not idempotent: a second
application wraps matches inside the first output again. -/
theorem c4_highlight :
    (∀ content term : List Char, term ≠ [] →
      (highlightSearchTerm content term = content ↔ occursCI term content = false)) ∧
    highlightSearchTerm "saw a Cat and a cat".data "cat".data =
      "saw a <mark>Cat</mark> and a <mark>cat</mark>".data := by
  refine ⟨?_, by decide⟩
  intro content term hterm
  have htermE : term.isEmpty = false := by
    cases term with
    | nil => exact absurd rfl hterm
    | cons t ts => rfl
  rw [highlightSearchTerm, htermE]
  simp only [Bool.false_eq_true, if_false]
  constructor
  · intro heq
    by_contra hocc
    have hocc' : occursCI term content = true := by
      simpa using hocc
    have hlt := highlightAux_occur_length term hterm content.length content le_rfl hocc'
    rw [heq] at hlt
    exact lt_irrefl _ hlt
  · intro hocc
    exact highlightAux_no_occur term content.length content hocc

/-- C4 witness: the amended equivalence applied at a concrete content and
term without an occurrence. -/
theorem c4_witness : highlightSearchTerm "xyz".data "b".data = "xyz".data :=
  (c4_highlight.1 "xyz".data "b".data (by decide)).mpr (by decide)

/-- C7: every video id the YouTube embed pass extracts is nonempty and lies
in the allow-list `[a-zA-Z0-9_-]`, so the sanitizer fixes it and the token
interpolated into the embed markup is exactly the allow-listed id (the
empty-after-sanitization fallback never has to fire). -/
theorem c7_yt_sanitize :
    ∀ (content : List Char) (v : List Char), v ∈ Ext.ytCaptures content →
      v ≠ [] ∧ v.all Ext.isYtChar = true ∧ Ext.sanitizeVideoId v = v := by
  intro content v hv
  have h := ytScanAux_captures content.length content v hv
  refine ⟨h.1, h.2, ?_⟩
  exact List.filter_eq_self.mpr fun a ha => (List.all_eq_true.mp h.2) a ha

/-- C7 witness: the capture invariant applied at a concrete embed. -/
theorem c7_witness :
    "abc123".data ≠ [] ∧ "abc123".data.all Ext.isYtChar = true ∧
      Ext.sanitizeVideoId "abc123".data = "abc123".data :=
  c7_yt_sanitize "[[htp://yt.abc123]]".data "abc123".data (by decide)

/-!  ## Lemmas about the lists pass -/

theorem ne_of_get1 {a b : List Char} {x y : Char}
    (hx : a.get? 1 = some x) (hy : b.get? 1 = some y) (hxy : x ≠ y) : a ≠ b := by
  intro h
  rw [h, hy] at hx
  exact hxy (Option.some.inj hx).symm

theorem renderListsGo_balanced :
    ∀ lines : List (List Char),
      (∀ l ∈ lines, l ≠ "<ul>".data ∧ l ≠ "</ul>".data ∧ l ≠ "<ol>".data ∧ l ≠ "</ol>".data) →
      ∀ inUl inOl : Bool,
        tagBalanced "<ul>".data "</ul>".data (renderListsGo inUl inOl lines)
          (cond inUl 1 0) = true ∧
        tagBalanced "<ol>".data "</ol>".data (renderListsGo inUl inOl lines)
          (cond inOl 1 0) = true := by
  intro lines
  induction lines with
  | nil =>
    intro _ inUl inOl
    cases inUl <;> cases inOl <;> exact ⟨by decide, by decide⟩
  | cons line ls ih =>
    intro h inUl inOl
    obtain ⟨h1, h2, h3, h4⟩ := h line (List.mem_cons_self line ls)
    have hls : ∀ l ∈ ls, l ≠ "<ul>".data ∧ l ≠ "</ul>".data ∧ l ≠ "<ol>".data ∧
        l ≠ "</ol>".data := fun l hl => h l (List.mem_cons_of_mem line hl)
    have d1 : "</ol>".data ≠ "<ul>".data := by decide
    have d2 : "</ol>".data ≠ "</ul>".data := by decide
    have d3 : "</ul>".data ≠ "<ol>".data := by decide
    have d4 : "</ul>".data ≠ "</ol>".data := by decide
    have d5 : "<ul>".data ≠ "<ol>".data := by decide
    have d6 : "<ul>".data ≠ "</ol>".data := by decide
    have d7 : "<ol>".data ≠ "<ul>".data := by decide
    have d8 : "<ol>".data ≠ "</ul>".data := by decide
    cases hu : listItemUnordered line with
    | some item =>
      obtain ⟨hbu, hbo⟩ := ih hls true false
      simp at hbu hbo
      have hl1 : ("<li>".data ++ item) ++ "</li>".data ≠ "<ul>".data :=
        ne_of_get1 rfl rfl (by decide)
      have hl2 : ("<li>".data ++ item) ++ "</li>".data ≠ "</ul>".data :=
        ne_of_get1 rfl rfl (by decide)
      have hl3 : ("<li>".data ++ item) ++ "</li>".data ≠ "<ol>".data :=
        ne_of_get1 rfl rfl (by decide)
      have hl4 : ("<li>".data ++ item) ++ "</li>".data ≠ "</ol>".data :=
        ne_of_get1 rfl rfl (by decide)
      cases inUl <;> cases inOl <;>
        refine ⟨?_, ?_⟩ <;>
        simp [renderListsGo, hu, tagBalanced, hl1, hl2, hl3, hl4,
          d1, d2, d3, d4, d5, d6, d7, d8, hbu, hbo]
    | none =>
      cases ho : listItemOrdered line with
      | some item =>
        obtain ⟨hbu, hbo⟩ := ih hls false true
        simp at hbu hbo
        have hl1 : ("<li>".data ++ item) ++ "</li>".data ≠ "<ul>".data :=
          ne_of_get1 rfl rfl (by decide)
        have hl2 : ("<li>".data ++ item) ++ "</li>".data ≠ "</ul>".data :=
          ne_of_get1 rfl rfl (by decide)
        have hl3 : ("<li>".data ++ item) ++ "</li>".data ≠ "<ol>".data :=
          ne_of_get1 rfl rfl (by decide)
        have hl4 : ("<li>".data ++ item) ++ "</li>".data ≠ "</ol>".data :=
          ne_of_get1 rfl rfl (by decide)
        cases inUl <;> cases inOl <;>
          refine ⟨?_, ?_⟩ <;>
          simp [renderListsGo, hu, ho, tagBalanced, hl1, hl2, hl3, hl4,
            d1, d2, d3, d4, d5, d6, d7, d8, hbu, hbo]
      | none =>
        obtain ⟨hbu, hbo⟩ := ih hls false false
        simp at hbu hbo
        cases inUl <;> cases inOl <;>
          refine ⟨?_, ?_⟩ <;>
          simp [renderListsGo, hu, ho, tagBalanced, h1, h2, h3, h4,
            d1, d2, d3, d4, d5, d6, d7, d8, hbu, hbo]

theorem renderListsGo_passthrough :
    ∀ (lines : List (List Char)) (inUl inOl : Bool) (l : List Char),
      l ∈ lines → listItemUnordered l = none → listItemOrdered l = none →
      l ∈ renderListsGo inUl inOl lines := by
  intro lines
  induction lines with
  | nil => intro inUl inOl l hl _ _; simp at hl
  | cons line ls ih =>
    intro inUl inOl l hl hu ho
    rcases List.mem_cons.mp hl with rfl | hl'
    · simp [renderListsGo, hu, ho]
    · cases hu' : listItemUnordered line with
      | some item =>
        have := ih true false l hl' hu ho
        simp [renderListsGo, hu', this]
      | none =>
        cases ho' : listItemOrdered line with
        | some item =>
          have := ih false true l hl' hu ho
          simp [renderListsGo, hu', ho', this]
        | none =>
          have := ih false false l hl' hu ho
          simp [renderListsGo, hu', ho', this]

/-- C10 counterexample: an input line that already reads `<ul>` is passed
through unchanged, so the output of the lists pass then contains a `<ul>`
with no later `</ul>` — the claimed balance fails for such inputs. -/
theorem c10_counterexample :
    renderLists "<ul>".data = "<ul>".data ∧
    tagBalanced "<ul>".data "</ul>".data
      (renderListsGo false false (splitLines "<ul>".data)) 0 = false :=
  ⟨by decide, by decide⟩

/-- C10 (amended): when no input line is itself one of the four list-tag
lines, the lists pass emits balanced `<ul>`/`</ul>` and `<ol>`/`</ol>` tag
lines (every closing tag preceded by its open, everything closed by the
end), and — unconditionally in the source, stated here under the same
hypothesis — every line that is neither an unordered nor an ordered list
item is passed through to the output unchanged. -/
theorem c10_list_balance :
    ∀ lines : List (List Char),
      (∀ l ∈ lines, l ≠ "<ul>".data ∧ l ≠ "</ul>".data ∧ l ≠ "<ol>".data ∧
        l ≠ "</ol>".data) →
      tagBalanced "<ul>".data "</ul>".data (renderListsGo false false lines) 0 = true ∧
      tagBalanced "<ol>".data "</ol>".data (renderListsGo false false lines) 0 = true ∧
      ∀ l ∈ lines, listItemUnordered l = none → listItemOrdered l = none →
        l ∈ renderListsGo false false lines := by
  intro lines h
  have hb := renderListsGo_balanced lines h false false
  exact ⟨hb.1, hb.2, fun l hl hu ho => renderListsGo_passthrough lines false false l hl hu ho⟩

/-- C10 witness: the balance and pass-through conclusions at a concrete
two-line input. -/
theorem c10_witness :
    tagBalanced "<ul>".data "</ul>".data
      (renderListsGo false false ["- a".data, "x".data]) 0 = true ∧
    tagBalanced "<ol>".data "</ol>".data
      (renderListsGo false false ["- a".data, "x".data]) 0 = true ∧
    ∀ l ∈ ["- a".data, "x".data], listItemUnordered l = none →
      listItemOrdered l = none → l ∈ renderListsGo false false ["- a".data, "x".data] :=
  c10_list_balance ["- a".data, "x".data] (by decide)

/-!  ## Lemmas about occurrence of substrings -/

theorem containsSub_cons (pat : List Char) (c : Char) (cs : List Char) :
    containsSub pat (c :: cs) = (pat.isPrefixOf (c :: cs) || containsSub pat cs) := by
  rw [containsSub, splitAtSub]
  by_cases h : pat.isPrefixOf (c :: cs) = true
  · simp [h]
  · simp only [Bool.not_eq_true] at h
    rw [containsSub]
    cases hs : splitAtSub pat cs <;> simp [h, hs]

theorem containsSub_append_left (pat a b : List Char) (h : containsSub pat b = true) :
    containsSub pat (a ++ b) = true := by
  induction a with
  | nil => simpa using h
  | cons c cs ih => rw [List.cons_append, containsSub_cons]; simp [ih]

theorem containsSub_at (pat b : List Char) (hpat : pat ≠ []) :
    containsSub pat (pat ++ b) = true := by
  cases pat with
  | nil => exact absurd rfl hpat
  | cons p ps =>
    rw [List.cons_append, containsSub_cons]
    have : (p :: ps).isPrefixOf ((p :: ps) ++ b) = true := by
      rw [List.isPrefixOf_iff_prefix]
      exact List.prefix_append (p :: ps) b
    rw [List.cons_append] at this
    simp [this]

theorem containsSub_middle (pat a b : List Char) (hpat : pat ≠ []) :
    containsSub pat (a ++ (pat ++ b)) = true :=
  containsSub_append_left pat a _ (containsSub_at pat b hpat)

/-!  ## Lemmas about the footnote pass -/

theorem fnSupHtml_ne_nil (n : Nat) : fnSupHtml n ≠ [] := by
  intro h
  have h0 : (fnSupHtml n).get? 0 = some '<' := rfl
  rw [h] at h0
  exact Option.noConfusion h0

theorem fnListItemHtml_ne_nil (fn : Footnote) : fnListItemHtml fn ≠ [] := by
  intro h
  have h0 : (fnListItemHtml fn).get? 0 = some '<' := rfl
  rw [h] at h0
  exact Option.noConfusion h0

theorem renderFootnotesAux_records :
    ∀ (fuel n : Nat) (l : List Char) (i : Nat),
      i < ((renderFootnotesAux fuel n l).2).length →
      ((renderFootnotesAux fuel n l).2.get? i).map Footnote.number = some (n + i) ∧
      ((renderFootnotesAux fuel n l).2.get? i).map Footnote.backrefId =
        some ("backref-".data ++ natToChars (n + i)) ∧
      ((renderFootnotesAux fuel n l).2.get? i).map Footnote.id =
        some ("footnote-".data ++ natToChars (n + i)) := by
  intro fuel
  induction fuel with
  | zero => intro n l i hi; simp [renderFootnotesAux] at hi
  | succ fuel ih =>
    intro n l i hi
    cases l with
    | nil => simp [renderFootnotesAux] at hi
    | cons c cs =>
      cases hm : fnTryMatch (c :: cs) with
      | some m =>
        obtain ⟨run, t, rest⟩ := m
        simp only [renderFootnotesAux, hm] at hi ⊢
        cases i with
        | zero => exact ⟨rfl, rfl, rfl⟩
        | succ i =>
          have hi' : i < ((renderFootnotesAux fuel (n + 1) rest).2).length := by
            rw [List.length_cons] at hi
            omega
          have h' := ih (n + 1) rest i hi'
          have heq : n + 1 + i = n + (i + 1) := by omega
          rw [heq] at h'
          refine ⟨?_, ?_, ?_⟩
          · rw [List.get?_cons_succ]; exact h'.1
          · rw [List.get?_cons_succ]; exact h'.2.1
          · rw [List.get?_cons_succ]; exact h'.2.2
      | none =>
        simp only [renderFootnotesAux, hm] at hi ⊢
        exact ih n cs i hi

theorem renderFootnotesAux_body_contains :
    ∀ (fuel n : Nat) (l : List Char) (fn : Footnote),
      fn ∈ (renderFootnotesAux fuel n l).2 →
      containsSub (fnSupHtml fn.number) ((renderFootnotesAux fuel n l).1) = true := by
  intro fuel
  induction fuel with
  | zero => intro n l fn hfn; simp [renderFootnotesAux] at hfn
  | succ fuel ih =>
    intro n l fn hfn
    cases l with
    | nil => simp [renderFootnotesAux] at hfn
    | cons c cs =>
      cases hm : fnTryMatch (c :: cs) with
      | some m =>
        obtain ⟨run, t, rest⟩ := m
        simp only [renderFootnotesAux, hm] at hfn ⊢
        rcases List.mem_cons.mp hfn with rfl | hfn'
        · rw [List.append_assoc]
          exact containsSub_middle _ run _ (fnSupHtml_ne_nil n)
        · rw [List.append_assoc]
          exact containsSub_append_left _ run _
            (containsSub_append_left _ (fnSupHtml n) _ (ih (n + 1) rest fn hfn'))
      | none =>
        simp only [renderFootnotesAux, hm] at hfn ⊢
        rw [containsSub_cons]
        simp [ih n cs fn hfn]

theorem renderFootnotes_section_contains :
    ∀ (content : List Char) (fn : Footnote), fn ∈ footnoteRecords content →
      containsSub (fnListItemHtml fn) (renderFootnotes content) = true := by
  intro content fn hfn
  rw [renderFootnotes]
  have hne : ((renderFootnotesAux content.length 1 content).2).isEmpty = false := by
    cases h : (renderFootnotesAux content.length 1 content).2 with
    | nil => rw [footnoteRecords, h] at hfn; simp at hfn
    | cons a l => rfl
  rw [hne]
  simp only [Bool.false_eq_true, if_false]
  apply containsSub_append_left
  rw [fnSectionHtml]
  obtain ⟨s, t, hst⟩ := List.append_of_mem (by rw [footnoteRecords] at hfn; exact hfn)
  rw [hst]
  have hmid := containsSub_middle (fnListItemHtml fn)
    ("<div class=\"footnotes-section\"><hr><h4>각주</h4><ol class=\"footnotes-list\">".data ++
      (List.map fnListItemHtml s).flatten)
    ((List.map fnListItemHtml t).flatten ++ "</ol></div>".data)
    (fnListItemHtml_ne_nil fn)
  simpa [List.map_append, List.map_cons, List.flatten_append, List.flatten_cons,
    List.append_assoc] using hmid

/-- C3: footnote ordinals are assigned from 1, strictly increasing in order
of first appearance (the i-th collected footnote carries number `i + 1`,
back-reference id `backref-(i+1)` and footnote id `footnote-(i+1)`, and the
body text contains its superscript anchor, whose `id` attribute is that
back-reference id); each trailing list entry embeds exactly the collected
back-reference id of its footnote; and on an input with three footnote
constructs the ordinals are exactly 1, 2, 3 in source order. -/
theorem c3_footnote_ordinals :
    (∀ (content : List Char) (i : Nat), i < (footnoteRecords content).length →
      ((footnoteRecords content).get? i).map Footnote.number = some (i + 1) ∧
      ((footnoteRecords content).get? i).map Footnote.backrefId =
        some ("backref-".data ++ natToChars (i + 1)) ∧
      ((footnoteRecords content).get? i).map Footnote.id =
        some ("footnote-".data ++ natToChars (i + 1)) ∧
      containsSub (fnSupHtml (i + 1)) (footnoteBody content) = true) ∧
    (∀ (content : List Char) (fn : Footnote), fn ∈ footnoteRecords content →
      containsSub (fnListItemHtml fn) (renderFootnotes content) = true) ∧
    (footnoteRecords "x[* a] y[* b] z[* c]".data).map Footnote.number = [1, 2, 3] ∧
    (footnoteRecords "x[* a] y[* b] z[* c]".data).map Footnote.backrefId =
      ["backref-1".data, "backref-2".data, "backref-3".data] := by
  refine ⟨?_, renderFootnotes_section_contains, by decide, by decide⟩
  intro content i hi
  simp only [footnoteRecords, footnoteBody] at hi ⊢
  have h := renderFootnotesAux_records content.length 1 content i hi
  rw [Nat.add_comm 1 i] at h
  refine ⟨h.1, h.2.1, h.2.2, ?_⟩
  rcases hg : ((renderFootnotesAux content.length 1 content).2).get? i with _ | fn
  · rw [List.get?_eq_none] at hg
    exact absurd hi (not_lt.mpr hg)
  · have hfn : fn ∈ (renderFootnotesAux content.length 1 content).2 := List.get?_mem hg
    have hnum : fn.number = i + 1 := by
      have h1 := h.1
      rw [hg] at h1
      simpa using h1
    rw [← hnum]
    exact renderFootnotesAux_body_contains content.length 1 content fn hfn

/-- C3 witness: the ordinal facts at a concrete one-footnote input and index 0. -/
theorem c3_witness :
    ((footnoteRecords "a[* b]".data).get? 0).map Footnote.number = some 1 ∧
    ((footnoteRecords "a[* b]".data).get? 0).map Footnote.backrefId =
      some ("backref-".data ++ natToChars 1) ∧
    ((footnoteRecords "a[* b]".data).get? 0).map Footnote.id =
      some ("footnote-".data ++ natToChars 1) ∧
    containsSub (fnSupHtml 1) (footnoteBody "a[* b]".data) = true :=
  c3_footnote_ordinals.1 "a[* b]".data 0 (by decide)

/-!  ## Claim theorems about the full render pipeline (concrete instances) -/

/-- C5: the bold pass runs before the italic pass, so
`render("**bold** and *italic*")` contains exactly one `<strong>` element
wrapping `bold` and exactly one `<em>` element wrapping `italic`, with no
mis-nesting. -/
theorem c5_bold_italic :
    (∀ (lookup : List Char → Option (List Char)) (enc : List Char → List Char),
      render lookup enc (some "**bold** and *italic*") =
        "<strong>bold</strong> and <em>italic</em>") ∧
    countSub "<strong>".data "<strong>bold</strong> and <em>italic</em>".data = 1 ∧
    countSub "</strong>".data "<strong>bold</strong> and <em>italic</em>".data = 1 ∧
    countSub "<em>".data "<strong>bold</strong> and <em>italic</em>".data = 1 ∧
    countSub "</em>".data "<strong>bold</strong> and <em>italic</em>".data = 1 ∧
    countSub "<strong>bold</strong>".data
      "<strong>bold</strong> and <em>italic</em>".data = 1 ∧
    countSub "<em>italic</em>".data
      "<strong>bold</strong> and <em>italic</em>".data = 1 := by
  refine ⟨?_, by decide, by decide, by decide, by decide, by decide, by decide⟩
  intro lookup enc
  have e1 : renderWikiHeaders "**bold** and *italic*".data =
    "**bold** and *italic*".data := rfl
  have e2 : renderCategories "**bold** and *italic*".data =
    "**bold** and *italic*".data := rfl
  have e3 : renderTags "**bold** and *italic*".data =
    "**bold** and *italic*".data := rfl
  have e4 : renderTableOfContents "**bold** and *italic*".data =
    "**bold** and *italic*".data := rfl
  have e5 : renderFootnotes "**bold** and *italic*".data =
    "**bold** and *italic*".data := rfl
  have e6 : renderWikiBold "**bold** and *italic*".data =
    "**bold** and *italic*".data := rfl
  have e7 : renderStrikethrough "**bold** and *italic*".data =
    "**bold** and *italic*".data := rfl
  have e8 : renderHeaders "**bold** and *italic*".data =
    "**bold** and *italic*".data := rfl
  have e9 : renderHorizontalRules "**bold** and *italic*".data =
    "**bold** and *italic*".data := rfl
  have e10 : renderCodeBlocks "**bold** and *italic*".data =
    "**bold** and *italic*".data := rfl
  have e11 : renderInlineCode "**bold** and *italic*".data =
    "**bold** and *italic*".data := rfl
  have e12 : renderImages lookup "**bold** and *italic*".data =
    "**bold** and *italic*".data := rfl
  have e13 : renderBold "**bold** and *italic*".data =
    "<strong>bold</strong> and *italic*".data := rfl
  have e14 : renderItalic "<strong>bold</strong> and *italic*".data =
    "<strong>bold</strong> and <em>italic</em>".data := rfl
  have e15 : renderBlockquotes "<strong>bold</strong> and <em>italic</em>".data =
    "<strong>bold</strong> and <em>italic</em>".data := rfl
  have e16 : renderLinks enc "<strong>bold</strong> and <em>italic</em>".data =
    "<strong>bold</strong> and <em>italic</em>".data := rfl
  have e17 : renderLists "<strong>bold</strong> and <em>italic</em>".data =
    "<strong>bold</strong> and <em>italic</em>".data := rfl
  have e18 : renderParagraphs "<strong>bold</strong> and <em>italic</em>".data =
    "<strong>bold</strong> and <em>italic</em>".data := rfl
  show (if ("**bold** and *italic*" : String) = "" then emptyPlaceholder
    else String.mk (renderBody lookup enc "**bold** and *italic*".data)) = _
  rw [if_neg (by decide : ¬("**bold** and *italic*" : String) = "")]
  simp only [renderBody]
  rw [e1, e2, e3, e4, e5, e6, e7, e8, e9, e10, e11, e12, e13, e14, e15, e16, e17, e18]

/-- C6: in the lists pass contiguous `- ` lines coalesce into one `<ul>`
that is closed by the first non-list line, so the trailing paragraph of
`render("- a\n- b\n\ntext")` stands after `</ul>`, not nested inside the
list. -/
theorem c6_list_termination :
    (∀ (lookup : List Char → Option (List Char)) (enc : List Char → List Char),
      render lookup enc (some "- a\n- b\n\ntext") =
        "<ul>\n<li>a</li>\n<li>b</li>\n</ul>\n<p>text</p>") ∧
    beforeSub "</ul>".data "<p>text</p>".data
      "<ul>\n<li>a</li>\n<li>b</li>\n</ul>\n<p>text</p>".data = true ∧
    countSub "<ul>".data "<ul>\n<li>a</li>\n<li>b</li>\n</ul>\n<p>text</p>".data = 1 ∧
    countSub "</ul>".data "<ul>\n<li>a</li>\n<li>b</li>\n</ul>\n<p>text</p>".data = 1 ∧
    countSub "<p>text</p>".data
      "<ul>\n<li>a</li>\n<li>b</li>\n</ul>\n<p>text</p>".data = 1 := by
  refine ⟨?_, by decide, by decide, by decide, by decide⟩
  intro lookup enc
  have e1 : renderWikiHeaders "- a\n- b\n\ntext".data = "- a\n- b\n\ntext".data := rfl
  have e2 : renderCategories "- a\n- b\n\ntext".data = "- a\n- b\n\ntext".data := rfl
  have e3 : renderTags "- a\n- b\n\ntext".data = "- a\n- b\n\ntext".data := rfl
  have e4 : renderTableOfContents "- a\n- b\n\ntext".data = "- a\n- b\n\ntext".data := rfl
  have e5 : renderFootnotes "- a\n- b\n\ntext".data = "- a\n- b\n\ntext".data := rfl
  have e6 : renderWikiBold "- a\n- b\n\ntext".data = "- a\n- b\n\ntext".data := rfl
  have e7 : renderStrikethrough "- a\n- b\n\ntext".data = "- a\n- b\n\ntext".data := rfl
  have e8 : renderHeaders "- a\n- b\n\ntext".data = "- a\n- b\n\ntext".data := rfl
  have e9 : renderHorizontalRules "- a\n- b\n\ntext".data = "- a\n- b\n\ntext".data := rfl
  have e10 : renderCodeBlocks "- a\n- b\n\ntext".data = "- a\n- b\n\ntext".data := rfl
  have e11 : renderInlineCode "- a\n- b\n\ntext".data = "- a\n- b\n\ntext".data := rfl
  have e12 : renderImages lookup "- a\n- b\n\ntext".data = "- a\n- b\n\ntext".data := rfl
  have e13 : renderBold "- a\n- b\n\ntext".data = "- a\n- b\n\ntext".data := rfl
  have e14 : renderItalic "- a\n- b\n\ntext".data = "- a\n- b\n\ntext".data := rfl
  have e15 : renderBlockquotes "- a\n- b\n\ntext".data = "- a\n- b\n\ntext".data := rfl
  have e16 : renderLinks enc "- a\n- b\n\ntext".data = "- a\n- b\n\ntext".data := rfl
  have e17 : renderLists "- a\n- b\n\ntext".data =
    "<ul>\n<li>a</li>\n<li>b</li>\n</ul>\n\ntext".data := rfl
  have e18 : renderParagraphs "<ul>\n<li>a</li>\n<li>b</li>\n</ul>\n\ntext".data =
    "<ul>\n<li>a</li>\n<li>b</li>\n</ul>\n<p>text</p>".data := rfl
  show (if ("- a\n- b\n\ntext" : String) = "" then emptyPlaceholder
    else String.mk (renderBody lookup enc "- a\n- b\n\ntext".data)) = _
  rw [if_neg (by decide : ¬("- a\n- b\n\ntext" : String) = "")]
  simp only [renderBody]
  rw [e1, e2, e3, e4, e5, e6, e7, e8, e9, e10, e11, e12, e13, e14, e15, e16, e17, e18]

/-!  ## Identity of the passes on plain text -/

theorem plainChar_spec (c : Char) (h : plainChar c = true) :
    c ≠ '#' ∧ c ≠ '*' ∧ c ≠ '-' ∧ c ≠ '`' ∧ c ≠ '[' ∧ c ≠ '~' ∧ c ≠ '=' ∧
    c ≠ '<' ∧ c ≠ '>' ∧ c ≠ '\n' := by
  simp only [plainChar, Bool.and_eq_true, decide_eq_true_eq] at h
  exact ⟨h.1.1.1.1.1.1.1.1.1, h.1.1.1.1.1.1.1.1.2, h.1.1.1.1.1.1.1.2,
    h.1.1.1.1.1.1.2, h.1.1.1.1.1.2, h.1.1.1.1.2, h.1.1.1.2, h.1.1.2, h.1.2, h.2⟩

theorem splitOnChar_no_sep (sep : Char) :
    ∀ l : List Char, (∀ c ∈ l, c ≠ sep) → splitOnChar sep l = [l] := by
  intro l
  induction l with
  | nil => intro _; rfl
  | cons c cs ih =>
    intro h
    have hc : c ≠ sep := h c (List.mem_cons_self _ _)
    have hcs := ih fun x hx => h x (List.mem_cons_of_mem _ hx)
    simp [splitOnChar, hc, hcs]

theorem joinLines_single (l : List Char) : joinLines [l] = l := by
  simp [joinLines]

theorem trimChars_id (l : List Char) (h1 : isWs (l.headD ' ') = false)
    (h2 : isWs (l.getLastD ' ') = false) : trimChars l = l := by
  rcases List.eq_nil_or_concat l with rfl | ⟨as, a, rfl⟩
  · rfl
  · rw [List.concat_eq_append] at h1 h2 ⊢
    have hlast : isWs a = false := by
      rw [List.getLastD_concat] at h2
      exact h2
    have hhead : List.dropWhile isWs (as ++ [a]) = as ++ [a] := by
      cases as with
      | nil =>
        simp only [List.nil_append, List.headD_cons] at h1 ⊢
        rw [List.dropWhile_cons, h1]
        simp
      | cons b bs =>
        rw [List.cons_append] at h1 ⊢
        simp only [List.headD_cons] at h1
        rw [List.dropWhile_cons, h1]
        simp
    rw [trimChars, hhead, List.reverse_append, List.reverse_singleton,
      List.singleton_append, List.dropWhile_cons, hlast]
    simp

theorem matchWikiHeader_none (l : List Char) (h : ∀ c ∈ l, c ≠ '=') :
    matchWikiHeader l = none := by
  cases l with
  | nil => rfl
  | cons c cs =>
    have hc : (c = '=') = False := by
      simp [h c (List.mem_cons_self _ _)]
    simp [matchWikiHeader, List.takeWhile_cons, hc]

theorem matchMdHeader_none (l : List Char) (h : ∀ c ∈ l, c ≠ '#') :
    matchMdHeader l = none := by
  cases l with
  | nil => rfl
  | cons c cs =>
    have hc : (c = '#') = False := by
      simp [h c (List.mem_cons_self _ _)]
    simp [matchMdHeader, List.takeWhile_cons, hc]

theorem hrLine_id (l : List Char) (hne : l ≠ []) (h : ∀ c ∈ l, c ≠ '-') :
    (if 3 ≤ l.length && l.all (· = '-') then "<hr>".data else l) = l := by
  cases l with
  | nil => exact absurd rfl hne
  | cons c cs =>
    have hc : (c = '-') = False := by
      simp [h c (List.mem_cons_self _ _)]
    simp [List.all_cons, hc]

theorem bqLineMatch_none (l : List Char) (h : ∀ c ∈ l, c ≠ '>') :
    bqLineMatch l = none := by
  cases l with
  | nil => rfl
  | cons c cs =>
    simp [bqLineMatch, h c (List.mem_cons_self _ _)]

theorem listItemUnordered_none (l : List Char) (hws : isWs (l.headD ' ') = false)
    (h : ∀ c ∈ l, c ≠ '-') : listItemUnordered l = none := by
  cases l with
  | nil => rfl
  | cons c cs =>
    simp only [List.headD_cons] at hws
    rw [listItemUnordered]
    rw [List.dropWhile_cons, hws]
    simp [h c (List.mem_cons_self _ _)]

theorem listItemOrdered_none (l : List Char) (hws : isWs (l.headD ' ') = false)
    (hd : (l.headD ' ').isDigit = false) : listItemOrdered l = none := by
  cases l with
  | nil => rfl
  | cons c cs =>
    simp only [List.headD_cons] at hws hd
    rw [listItemOrdered]
    rw [List.dropWhile_cons, hws]
    simp [List.takeWhile_cons, hd]

theorem startsWithNumDot_false (l : List Char) (hd : (l.headD ' ').isDigit = false) :
    startsWithNumDot l = false := by
  cases l with
  | nil => rfl
  | cons c cs =>
    simp only [List.headD_cons] at hd
    simp [startsWithNumDot, List.takeWhile_cons, hd]

theorem isBlockElement_false (c : Char) (cs : List Char)
    (hplain : plainChar c = true) (hd : c.isDigit = false) :
    isBlockElement (c :: cs) = false := by
  obtain ⟨_, hstar, hdash, hbt, _, _, _, hlt, hgt, _⟩ := plainChar_spec c hplain
  have h1 : ((c :: cs) == "<hr>".data) = false := by
    apply beq_eq_false_iff_ne.mpr
    intro hh
    exact hlt (List.cons.inj hh).1
  have h2 : "- ".data.isPrefixOf (c :: cs) = false := by
    simp [List.isPrefixOf, beq_eq_false_iff_ne.mpr (Ne.symm hdash)]
  have h3 : "* ".data.isPrefixOf (c :: cs) = false := by
    simp [List.isPrefixOf, beq_eq_false_iff_ne.mpr (Ne.symm hstar)]
  have h4 : "> ".data.isPrefixOf (c :: cs) = false := by
    simp [List.isPrefixOf, beq_eq_false_iff_ne.mpr (Ne.symm hgt)]
  have h5 : "```".data.isPrefixOf (c :: cs) = false := by
    simp [List.isPrefixOf, beq_eq_false_iff_ne.mpr (Ne.symm hbt)]
  have h6 := startsWithNumDot_false (c :: cs) (by simpa using hd)
  simp [isBlockElement, h1, h2, h3, h4, h5, h6, hlt, hgt,
    (plainChar_spec c hplain).1]

theorem cons_isPrefixOf_neg {a b : Char} {as bs : List Char} (h : (a == b) = false) :
    (a :: as).isPrefixOf (b :: bs) = false := by
  simp [List.isPrefixOf, h]

theorem replaceAllSubAux_id (p0 : Char) (ps rep : List Char) :
    ∀ (fuel : Nat) (l : List Char), (∀ c ∈ l, c ≠ p0) →
      replaceAllSubAux (p0 :: ps) rep fuel l = l := by
  intro fuel
  induction fuel with
  | zero => intro l _; rfl
  | succ fuel ih =>
    intro l h
    cases l with
    | nil => rfl
    | cons c cs =>
      have hpre := @cons_isPrefixOf_neg p0 c ps cs
        (beq_eq_false_iff_ne.mpr (Ne.symm (h c (List.mem_cons_self _ _))))
      rw [replaceAllSubAux, hpre]
      simp only [Bool.false_eq_true, if_false]
      rw [ih cs fun x hx => h x (List.mem_cons_of_mem _ hx)]

theorem renderCodeBlocksAux_id :
    ∀ (fuel : Nat) (l : List Char), (∀ c ∈ l, c ≠ '`') →
      renderCodeBlocksAux fuel l = l := by
  intro fuel
  induction fuel with
  | zero => intro l _; rfl
  | succ fuel ih =>
    intro l h
    cases l with
    | nil => rfl
    | cons c cs =>
      have hpre : "```".data.isPrefixOf (c :: cs) = false := by
        show ('`' :: "``".data).isPrefixOf (c :: cs) = false
        exact cons_isPrefixOf_neg
          (beq_eq_false_iff_ne.mpr (Ne.symm (h c (List.mem_cons_self _ _))))
      rw [renderCodeBlocksAux, hpre]
      simp only [Bool.false_eq_true, if_false]
      rw [ih cs fun x hx => h x (List.mem_cons_of_mem _ hx)]

theorem renderInlineCodeAux_id :
    ∀ (fuel : Nat) (l : List Char), (∀ c ∈ l, c ≠ '`') →
      renderInlineCodeAux fuel l = l := by
  intro fuel
  induction fuel with
  | zero => intro l _; rfl
  | succ fuel ih =>
    intro l h
    cases l with
    | nil => rfl
    | cons c cs =>
      rw [renderInlineCodeAux, if_neg (h c (List.mem_cons_self _ _))]
      rw [ih cs fun x hx => h x (List.mem_cons_of_mem _ hx)]

theorem doubleDelimAux_id (d : Char) (openTag closeTag : List Char) :
    ∀ (fuel : Nat) (l : List Char), (∀ c ∈ l, c ≠ d) →
      doubleDelimAux d openTag closeTag fuel l = l := by
  intro fuel
  induction fuel with
  | zero => intro l _; rfl
  | succ fuel ih =>
    intro l h
    cases l with
    | nil => rfl
    | cons c cs =>
      have hpre := @cons_isPrefixOf_neg d c [d] cs
        (beq_eq_false_iff_ne.mpr (Ne.symm (h c (List.mem_cons_self _ _))))
      rw [doubleDelimAux, hpre]
      simp only [Bool.false_eq_true, if_false]
      rw [ih cs fun x hx => h x (List.mem_cons_of_mem _ hx)]

theorem renderItalicAux_id :
    ∀ (fuel : Nat) (l : List Char), (∀ c ∈ l, c ≠ '*') →
      renderItalicAux fuel l = l := by
  intro fuel
  induction fuel with
  | zero => intro l _; rfl
  | succ fuel ih =>
    intro l h
    cases l with
    | nil => rfl
    | cons c cs =>
      rw [renderItalicAux, if_neg (h c (List.mem_cons_self _ _))]
      rw [ih cs fun x hx => h x (List.mem_cons_of_mem _ hx)]

theorem renderTagsAux_id :
    ∀ (fuel : Nat) (l : List Char), (∀ c ∈ l, c ≠ '#') →
      renderTagsAux fuel l = l := by
  intro fuel
  induction fuel with
  | zero => intro l _; rfl
  | succ fuel ih =>
    intro l h
    cases l with
    | nil => rfl
    | cons c cs =>
      rw [renderTagsAux, if_neg (h c (List.mem_cons_self _ _))]
      rw [ih cs fun x hx => h x (List.mem_cons_of_mem _ hx)]

theorem renderCategoriesAux_id :
    ∀ (fuel : Nat) (l : List Char), (∀ c ∈ l, c ≠ '[') →
      renderCategoriesAux fuel l = l := by
  intro fuel
  induction fuel with
  | zero => intro l _; rfl
  | succ fuel ih =>
    intro l h
    cases l with
    | nil => rfl
    | cons c cs =>
      have hpre : "[[분류:".data.isPrefixOf (c :: cs) = false := by
        show ('[' :: "[분류:".data).isPrefixOf (c :: cs) = false
        exact cons_isPrefixOf_neg
          (beq_eq_false_iff_ne.mpr (Ne.symm (h c (List.mem_cons_self _ _))))
      rw [renderCategoriesAux, hpre]
      simp only [Bool.false_eq_true, if_false]
      rw [ih cs fun x hx => h x (List.mem_cons_of_mem _ hx)]

theorem renderImagesAux_id (lookup : List Char → Option (List Char)) :
    ∀ (fuel : Nat) (l : List Char), (∀ c ∈ l, c ≠ '[') →
      renderImagesAux lookup fuel l = l := by
  intro fuel
  induction fuel with
  | zero => intro l _; rfl
  | succ fuel ih =>
    intro l h
    cases l with
    | nil => rfl
    | cons c cs =>
      have hpre : "![".data.isPrefixOf (c :: cs) = false := by
        show ('!' :: "[".data).isPrefixOf (c :: cs) = false
        cases hbc : ('!' == c) with
        | false => simp [List.isPrefixOf, hbc]
        | true =>
          cases cs with
          | nil => simp [List.isPrefixOf]
          | cons c2 cs2 =>
            have h2 : ('[' == c2) = false := beq_eq_false_iff_ne.mpr
              (Ne.symm (h c2 (List.mem_cons_of_mem _ (List.mem_cons_self _ _))))
            simp [List.isPrefixOf, h2]
      rw [renderImagesAux, hpre]
      simp only [Bool.false_eq_true, if_false]
      rw [ih cs fun x hx => h x (List.mem_cons_of_mem _ hx)]

theorem renderLinksAux_id (enc : List Char → List Char) :
    ∀ (fuel : Nat) (l : List Char), (∀ c ∈ l, c ≠ '[') →
      renderLinksAux enc fuel l = l := by
  intro fuel
  induction fuel with
  | zero => intro l _; rfl
  | succ fuel ih =>
    intro l h
    cases l with
    | nil => rfl
    | cons c cs =>
      rw [renderLinksAux, if_neg (h c (List.mem_cons_self _ _))]
      rw [ih cs fun x hx => h x (List.mem_cons_of_mem _ hx)]

theorem not_prefix_bracket_star (rest : List Char) (h : ∀ x ∈ rest, x ≠ '[') :
    ['[', '*'].isPrefixOf rest = false := by
  cases rest with
  | nil => rfl
  | cons r rs =>
    exact cons_isPrefixOf_neg
      (beq_eq_false_iff_ne.mpr (Ne.symm (h r (List.mem_cons_self _ _))))

theorem fnTryMatch_none (l : List Char) (h : ∀ c ∈ l, c ≠ '[') :
    fnTryMatch l = none := by
  cases l with
  | nil => rfl
  | cons c cs =>
    simp only [fnTryMatch]
    split
    · split
      · rename_i hpre
        have hfalse := not_prefix_bracket_star
          (List.drop (List.takeWhile (fun c => decide (c ≠ '[') && !isWs c)
            (c :: cs)).length (c :: cs))
          fun x hx => h x (List.mem_of_mem_drop hx)
        rw [hfalse] at hpre
        exact absurd hpre (by simp)
      · rfl
    · rfl

theorem renderFootnotesAux_id :
    ∀ (fuel n : Nat) (l : List Char), (∀ c ∈ l, c ≠ '[') →
      renderFootnotesAux fuel n l = (l, []) := by
  intro fuel
  induction fuel with
  | zero => intro n l _; rfl
  | succ fuel ih =>
    intro n l h
    cases l with
    | nil => rfl
    | cons c cs =>
      have hm := fnTryMatch_none (c :: cs) h
      simp only [renderFootnotesAux, hm]
      rw [ih n cs fun x hx => h x (List.mem_cons_of_mem _ hx)]

theorem renderFootnotes_plain (l : List Char) (h : ∀ c ∈ l, c ≠ '[') :
    renderFootnotes l = l := by
  simp only [renderFootnotes]
  rw [renderFootnotesAux_id l.length 1 l h]
  simp

theorem renderTableOfContents_plain (l : List Char) (h : ∀ c ∈ l, c ≠ '[') :
    renderTableOfContents l = l := by
  simp only [renderTableOfContents, replaceAllSub]
  exact replaceAllSubAux_id '[' "목차]".data _ l.length l h

theorem renderWikiHeaders_plain (l : List Char) (hnl : ∀ c ∈ l, c ≠ '\n')
    (heq : ∀ c ∈ l, c ≠ '=') : renderWikiHeaders l = l := by
  rw [renderWikiHeaders, splitLines, splitOnChar_no_sep '\n' l hnl]
  simp [matchWikiHeader_none l heq, joinLines_single]

theorem renderHeaders_plain (l : List Char) (hnl : ∀ c ∈ l, c ≠ '\n')
    (hh : ∀ c ∈ l, c ≠ '#') : renderHeaders l = l := by
  rw [renderHeaders, splitLines, splitOnChar_no_sep '\n' l hnl]
  simp [matchMdHeader_none l hh, joinLines_single]

theorem renderHorizontalRules_plain (l : List Char) (hne : l ≠ [])
    (hnl : ∀ c ∈ l, c ≠ '\n') (hd : ∀ c ∈ l, c ≠ '-') :
    renderHorizontalRules l = l := by
  rw [renderHorizontalRules, splitLines, splitOnChar_no_sep '\n' l hnl]
  simp only [List.map_cons, List.map_nil]
  rw [hrLine_id l hne hd, joinLines_single]

theorem renderBlockquotes_plain (l : List Char) (hnl : ∀ c ∈ l, c ≠ '\n')
    (hgt : ∀ c ∈ l, c ≠ '>') : renderBlockquotes l = l := by
  rw [renderBlockquotes, splitLines, splitOnChar_no_sep '\n' l hnl]
  simp [renderBlockquotesGo, bqLineMatch_none l hgt, joinLines_single]

theorem renderLists_plain (l : List Char) (hnl : ∀ c ∈ l, c ≠ '\n')
    (hws : isWs (l.headD ' ') = false) (hdash : ∀ c ∈ l, c ≠ '-')
    (hd : (l.headD ' ').isDigit = false) : renderLists l = l := by
  rw [renderLists, splitLines, splitOnChar_no_sep '\n' l hnl]
  simp [renderListsGo, listItemUnordered_none l hws hdash,
    listItemOrdered_none l hws hd, joinLines_single]

theorem renderParagraphs_plain (l : List Char) (hpl : isPlainLine l = true) :
    renderParagraphs l = "<p>".data ++ l ++ "</p>".data := by
  simp only [isPlainLine, Bool.and_eq_true, Bool.not_eq_true',
    List.all_eq_true] at hpl
  obtain ⟨⟨⟨⟨hne, hall⟩, hws⟩, hdig⟩, hlast⟩ := hpl
  have hnl : ∀ c ∈ l, c ≠ '\n' := fun c hc =>
    (plainChar_spec c (hall c hc)).2.2.2.2.2.2.2.2.2
  have htrim := trimChars_id l hws hlast
  rw [renderParagraphs, splitLines, splitOnChar_no_sep '\n' l hnl]
  cases l with
  | nil => simp [List.isEmpty] at hne
  | cons c cs =>
    have hblock := isBlockElement_false c cs
      (hall c (List.mem_cons_self _ _)) (by simpa using hdig)
    simp only [renderParagraphsGo, htrim, hblock, Bool.false_eq_true, if_false]
    have : (c :: cs).isEmpty = false := rfl
    simp [this, htrim, joinLines_single]

/-- C1 counterexample: `render` does not HTML-escape plain paragraph text —
on the markup-free input `"a & b"` it returns the ampersand verbatim, not
the entity-escaped form the claim requires. -/
theorem c1_counterexample :
    render (fun _ => none) (fun l => l) (some "a & b") = "<p>a & b</p>" ∧
    "<p>a & b</p>" ≠ "<p>" ++ String.mk (specHtmlEscape "a & b".data) ++ "</p>" :=
  ⟨rfl, by decide⟩

/-- C1 (amended): for every nonempty single-line string of plain characters
(no `#`, `*`, `-`, backtick, `[`, `~`, `=`, `<`, `>` or newline, not
starting with whitespace or a digit, not ending with whitespace) `render`
returns exactly `<p>` ++ the text verbatim ++ `</p>` — the text survives as
a single paragraph with no HTML-escaping applied. -/
theorem c1_plain_text_paragraph :
    ∀ (lookup : List Char → Option (List Char)) (enc : List Char → List Char)
      (s : String), isPlainLine s.data = true →
      render lookup enc (some s) = "<p>" ++ s ++ "</p>" := by
  intro lookup enc s hs
  have hs' := hs
  simp only [isPlainLine, Bool.and_eq_true, Bool.not_eq_true',
    List.all_eq_true] at hs'
  obtain ⟨⟨⟨⟨hne, hall⟩, hws⟩, hdig⟩, hlast⟩ := hs'
  have spec : ∀ c ∈ s.data, c ≠ '#' ∧ c ≠ '*' ∧ c ≠ '-' ∧ c ≠ '`' ∧ c ≠ '[' ∧
      c ≠ '~' ∧ c ≠ '=' ∧ c ≠ '<' ∧ c ≠ '>' ∧ c ≠ '\n' :=
    fun c hc => plainChar_spec c (hall c hc)
  have hnl : ∀ c ∈ s.data, c ≠ '\n' := fun c hc => (spec c hc).2.2.2.2.2.2.2.2.2
  have hnempty : s.data ≠ [] := by
    intro hed
    rw [hed] at hne
    simp at hne
  have hsne : s ≠ "" := by
    intro hempty
    rw [hempty] at hnempty
    exact hnempty rfl
  have p1 := renderWikiHeaders_plain s.data hnl fun c hc => (spec c hc).2.2.2.2.2.2.1
  have p2 := renderCategoriesAux_id s.data.length s.data
    fun c hc => (spec c hc).2.2.2.2.1
  have p3 := renderTagsAux_id s.data.length s.data fun c hc => (spec c hc).1
  have p4 := renderTableOfContents_plain s.data fun c hc => (spec c hc).2.2.2.2.1
  have p5 := renderFootnotes_plain s.data fun c hc => (spec c hc).2.2.2.2.1
  have p6 := doubleDelimAux_id '-' "<strong>".data "</strong>".data
    s.data.length s.data fun c hc => (spec c hc).2.2.1
  have p7 := doubleDelimAux_id '~' "<del>".data "</del>".data
    s.data.length s.data fun c hc => (spec c hc).2.2.2.2.2.1
  have p8 := renderHeaders_plain s.data hnl fun c hc => (spec c hc).1
  have p9 := renderHorizontalRules_plain s.data hnempty hnl
    fun c hc => (spec c hc).2.2.1
  have p10 := renderCodeBlocksAux_id s.data.length s.data
    fun c hc => (spec c hc).2.2.2.1
  have p11 := renderInlineCodeAux_id s.data.length s.data
    fun c hc => (spec c hc).2.2.2.1
  have p12 := renderImagesAux_id lookup s.data.length s.data
    fun c hc => (spec c hc).2.2.2.2.1
  have p13 := doubleDelimAux_id '*' "<strong>".data "</strong>".data
    s.data.length s.data fun c hc => (spec c hc).2.1
  have p14 := renderItalicAux_id s.data.length s.data fun c hc => (spec c hc).2.1
  have p15 := renderBlockquotes_plain s.data hnl
    fun c hc => (spec c hc).2.2.2.2.2.2.2.2.1
  have p16 := renderLinksAux_id enc s.data.length s.data
    fun c hc => (spec c hc).2.2.2.2.1
  have p17 := renderLists_plain s.data hnl hws
    (fun c hc => (spec c hc).2.2.1) hdig
  have p18 := renderParagraphs_plain s.data hs
  show (if s = "" then emptyPlaceholder
    else String.mk (renderBody lookup enc s.data)) = _
  rw [if_neg hsne]
  simp only [renderBody, renderCategories, renderTags, renderWikiBold,
    renderStrikethrough, renderCodeBlocks, renderInlineCode, renderImages,
    renderBold, renderItalic, renderLinks]
  rw [p1, p2, p3, p4, p5, p6, p7, p8, p9, p10, p11, p12, p13, p14, p15, p16,
    p17, p18]
  cases s with
  | mk d => rfl

/-- C1 witness: the amended plain-text theorem at a concrete plain input. -/
theorem c1_witness :
    isPlainLine ("plain text" : String).data = true ∧
    render (fun _ => none) (fun l => l) (some "plain text") =
      "<p>" ++ "plain text" ++ "</p>" :=
  ⟨by decide, c1_plain_text_paragraph (fun _ => none) (fun l => l) "plain text"
    (by decide)⟩

end Wiki
